import Mathlib

/-!
# Verification of the angular-sheet grid widget core

A shallow embedding of the data model and the operations of the
`angular-sheet` repository: the cell model (`sheet.model.ts`), the sheet
data store (`data.service.ts`), the undo snapshot stack
(`undo-redo.service.ts`), the clipboard codec (`clipboard.service.ts`)
and the relevant branches of the event router (`event.service.ts`).

JavaScript-specific behaviour is modelled explicitly:
* array indexing out of bounds yields `undefined`, modelled as `Option`;
* member access on `undefined` throws a `TypeError`, modelled as the
  `Except` error branch — since the source mutates the sheet in place,
  the error value carries the state as mutated up to the throw;
* `x ?? y` maps `null`/`undefined` to `y`;
* `JSON.parse(JSON.stringify _)` serialises a `Date` to its ISO string
  and drops function-valued fields.
-/

namespace AngularSheet

/-- The JS values a cell may hold (`string | number | boolean | Date | null`).
Numbers are modelled as integers (the claims only involve integral values);
a `Date` is modelled by the ISO-8601 string its `toJSON` returns. -/
inductive JSVal where
  | str (s : String)
  | num (n : Int)
  | bool (b : Bool)
  | date (iso : String)
  | null
  deriving Repr, DecidableEq

/-- `typeof v === 'object'` — true exactly for `null` and `Date` objects
among the cell value types. -/
def JSVal.typeofIsObject : JSVal → Bool
  | .null => true
  | .date _ => true
  | _ => false

/-- `value?.toString() ?? ''` as used when serialising a cell.  `null`
(and `undefined`) become `''`.  The text of `Date.prototype.toString` is
abstracted by the stored ISO string; no claim depends on its exact form
(the clipboard claims restrict to string-valued cells). -/
def JSVal.displayString : JSVal → String
  | .str s => s
  | .num n => toString n
  | .bool b => cond b "true" "false"
  | .date iso => iso
  | .null => ""

/-- The `value ?? ''` coercion in `DataService.updateCellValues`: an
`undefined` (missing) or `null` entry becomes the empty string. -/
def coalesceEmpty : Option JSVal → JSVal
  | some .null => .str ""
  | some v => v
  | none => .str ""

/-- The subset of `CellStyles` the claims touch (`sheet.model.ts`):
`updateStyles` only ever writes `backgroundColor` and `fontWeight`;
the constructor defaults are `'white'` and `'normal'`. -/
structure CellStyles where
  backgroundColor : String := "white"
  fontWeight : String := "normal"
  deriving Repr, DecidableEq

/-- The `Cell` class of `sheet.model.ts`.  `customRenderer` is a function
value in the source; function identity cannot be data, so it is modelled
as an optional opaque tag (`Option Nat`), which is enough to observe that
JSON snapshots drop it. -/
structure Cell where
  value : JSVal
  datatype : String := "string"
  styles : CellStyles := {}
  isHighlighted : Bool := false
  isFocused : Bool := false
  isReferenceCell : Bool := false
  rowIndex : Option Int := none
  columnIndex : Option Int := none
  customRenderer : Option Nat := none
  deriving Repr, DecidableEq

/-- `Cell.updateStyles` (`sheet.model.ts` lines 105–120): derives
`styles.backgroundColor` (and, for reference cells, `fontWeight`) from the
`isFocused` / `isHighlighted` / `isReferenceCell` flags.  Note the
reference-cell branch only overwrites a background that is currently
`'white'`. -/
def Cell.updateStyles (c : Cell) : Cell :=
  if c.isFocused then
    { c with styles := { c.styles with backgroundColor := "#d1e0ff" } }
  else if c.isHighlighted then
    { c with styles := { c.styles with backgroundColor := "#ffe0e0" } }
  else if c.isReferenceCell then
    let s := if c.styles.backgroundColor = "white" then
               { c.styles with backgroundColor := "#e0e0e0" }
             else c.styles
    { c with styles := { s with fontWeight := "bold" } }
  else
    { c with styles := { c.styles with backgroundColor := "white" } }

/-- `Cell.handleInput` (`sheet.model.ts` lines 100–103): assigns the new
value and re-derives the styles. -/
def Cell.handleInput (c : Cell) (newValue : JSVal) : Cell :=
  Cell.updateStyles { c with value := newValue }

/-- `ColumnStyle` (`sheet.model.ts`): a width (sizes are modelled as
integers; the claims use integral units). -/
structure ColumnStyle where
  width : Int
  deriving Repr, DecidableEq

/-- `RowStyle` (`sheet.model.ts`): a height. -/
structure RowStyle where
  height : Int
  deriving Repr, DecidableEq

/-- The `Sheet` interface (`sheet.model.ts`). -/
structure Sheet where
  cells : List (List Cell)
  columns : List ColumnStyle
  rows : List RowStyle
  deriving Repr, DecidableEq

/-- A row/column position, as in the `Range` type of `sheet.model.ts`.
Indices are JS numbers, modelled as `Int` (they may be negative: the
sentinel "no selection" range uses `-1`). -/
structure Pos where
  row : Int
  col : Int
  deriving Repr, DecidableEq

/-- `Range` (`sheet.model.ts`): an unnormalized start/end pair. -/
structure Range where
  start : Pos
  end_ : Pos
  deriving Repr, DecidableEq

/-! ## JS array access -/

/-- JS array read `l[i]`: `undefined` (`none`) when `i` is negative or
past the end. -/
def jsGet? {α : Type} (l : List α) (i : Int) : Option α :=
  if i < 0 then none else l.get? i.toNat

/-- JS array element write `l[i] = a` at a non-negative in-bounds index;
out of bounds it leaves the list unchanged (the embedding only writes at
indices proved present). -/
def jsSet {α : Type} (l : List α) (i : Int) (a : α) : List α :=
  if i < 0 then l else l.set i.toNat a

/-- Two-dimensional JS read `cells[r][c]` when `cells[r]` is defined. -/
def jsGet2? {α : Type} (l : List (List α)) (r c : Int) : Option α :=
  match jsGet? l r with
  | none => none
  | some row => jsGet? row c

/-- `cells[r][c] = a` where row `r` is present. -/
def jsSet2 {α : Type} (l : List (List α)) (r c : Int) (a : α) : List (List α) :=
  match jsGet? l r with
  | none => l
  | some row => jsSet l r (jsSet row c a)

/-- `n` consecutive integers starting at `a`. -/
def intRangeAux (a : Int) : Nat → List Int
  | 0 => []
  | n + 1 => a :: intRangeAux (a + 1) n

/-- The list of loop indices of `for (let i = a; i <= b; i++)`. -/
def intRange (a b : Int) : List Int :=
  intRangeAux a (b + 1 - a).toNat

/-! ## Undo snapshot stack (`undo-redo.service.ts`) -/

/-- `UndoRedoService.cloneSheet`: `JSON.parse(JSON.stringify(sheet))`.
On the modelled fields: primitive values survive, a `Date` becomes its
ISO string (via `Date.prototype.toJSON`), and function-valued fields
(`customRenderer`) are dropped. -/
def jsonRoundValue : JSVal → JSVal
  | .date iso => .str iso
  | v => v

/-- JSON round trip of one cell: the value is JSON-serialised and the
`customRenderer` function field disappears. -/
def jsonRoundCell (c : Cell) : Cell :=
  { c with value := jsonRoundValue c.value, customRenderer := none }

/-- `UndoRedoService.cloneSheet` on a whole sheet. -/
def cloneSheet (s : Sheet) : Sheet :=
  { s with cells := s.cells.map (fun row => row.map jsonRoundCell) }

/-! ## Sheet data store (`data.service.ts`)

The store's observable state: the current sheet and the undo history.
The history stack is modelled head-first (`push` conses, `pop` takes the
head), matching `historyStack.push` / `historyStack.pop`. -/

structure DataState where
  sheet : Option Sheet
  history : List Sheet
  deriving Repr, DecidableEq

/-- `UndoRedoService.captureSheetState`: push a JSON deep clone. -/
def captureSheetState (st : DataState) (s : Sheet) : DataState :=
  { st with history := cloneSheet s :: st.history }

/-- `UndoRedoService.undo`: pop the snapshot stack, `null` when empty. -/
def undoPop (st : DataState) : Option Sheet × DataState :=
  match st.history with
  | [] => (none, st)
  | top :: rest => (some top, { st with history := rest })

/-- The `input` argument of `DataService.updateCellValues`: a scalar or a
2D array.  Matrix entries are `Option JSVal` so that a JS `undefined`
hole (an out-of-range read while building paste data) is representable. -/
inductive UpdateInput where
  | scalar (v : JSVal)
  | matrix (m : List (List (Option JSVal)))
  deriving Repr, DecidableEq

/-- `Array.isArray(input)`. -/
def UpdateInput.isArray : UpdateInput → Bool
  | .matrix _ => true
  | .scalar _ => false

/-- `typeof input !== 'object'` (`data.service.ts` line 66): false for
arrays, `null` and `Date`; true for strings, numbers and booleans. -/
def UpdateInput.isSingleValue : UpdateInput → Bool
  | .matrix _ => false
  | .scalar v => !v.typeofIsObject

/-- `input[i][j]` in the non-single-value branch (`data.service.ts`
line 77).  Indexing a non-array (`null` or a `Date` scalar) or a missing
matrix row throws; a missing entry of a present row is `undefined`. -/
def UpdateInput.entry : UpdateInput → Int → Int → Except String (Option JSVal)
  | .scalar _, _, _ => .error "TypeError: input is not indexable"
  | .matrix m, i, j =>
    match jsGet? m i with
    | none => .error "TypeError: cannot index undefined matrix row"
    | some row => .ok (jsGet? row j).join

/-- One iteration of the nested update loop of
`DataService.updateCellValues` (lines 70–82): fetch
`currentSheet.cells[row][col]` (a missing row throws, a missing cell in a
present row is skipped) and, when present, apply `handleInput` with the
scalar or the `value ?? ''` matrix entry.  An error carries the cells as
mutated so far, since the source mutates in place. -/
def writeCellStep (inp : UpdateInput) (rowStart colStart : Int)
    (cells : List (List Cell)) (row col : Int) :
    Except (String × List (List Cell)) (List (List Cell)) :=
  match jsGet? cells row with
  | none => .error ("TypeError: cells[row] is undefined", cells)
  | some rowCells =>
    match jsGet? rowCells col with
    | none => .ok cells
    | some cell =>
      if inp.isSingleValue then
        match inp with
        | .scalar v => .ok (jsSet2 cells row col (cell.handleInput v))
        | .matrix _ => .ok cells
      else
        match inp.entry (row - rowStart) (col - colStart) with
        | .error e => .error (e, cells)
        | .ok v => .ok (jsSet2 cells row col (cell.handleInput (coalesceEmpty v)))

/-- The nested `for` loops of `DataService.updateCellValues`. -/
def updateLoop (inp : UpdateInput) (rowStart colStart rowEnd colEnd : Int)
    (cells : List (List Cell)) :
    Except (String × List (List Cell)) (List (List Cell)) :=
  (intRange rowStart rowEnd).foldlM (fun cs row =>
    (intRange colStart colEnd).foldlM (fun cs2 col =>
      writeCellStep inp rowStart colStart cs2 row col) cs) cells

/-- `rowEnd` of `DataService.updateCellValues` (line 62):
`Array.isArray(input) ? rowStart + input.length - 1 : rowStart`. -/
def inputRowEnd (input : UpdateInput) (rowStart : Int) : Int :=
  match input with
  | .matrix m => rowStart + m.length - 1
  | .scalar _ => rowStart

/-- `columnEnd` of `DataService.updateCellValues` (line 63):
`Array.isArray(input) ? columnStart + input[0].length - 1 : columnStart`;
reading `input[0].length` of an empty array throws. -/
def inputColumnEnd (input : UpdateInput) (columnStart : Int) : Except String Int :=
  match input with
  | .matrix [] => .error "TypeError: cannot read length of undefined"
  | .matrix (row0 :: _) => .ok (columnStart + (row0.length : Int) - 1)
  | .scalar _ => .ok columnStart

/-- `DataService.updateCellValues` (`data.service.ts` lines 55–84).
Computes the target rectangle (`input[0].length` throws on an empty
matrix), returns silently when no sheet is set, pushes an undo snapshot
when `recordUndo`, then runs the update loop.  A thrown `TypeError`
escapes to the caller carrying the state as mutated up to the throw. -/
def updateCellValues (st : DataState) (rowStart columnStart : Int)
    (input : UpdateInput) (recordUndo : Bool := true) :
    Except (String × DataState) DataState :=
  let rowEnd := inputRowEnd input rowStart
  match inputColumnEnd input columnStart with
  | .error e => .error (e, st)
  | .ok columnEnd =>
    match st.sheet with
    | none => .ok st
    | some currentSheet =>
      let st1 := if recordUndo then captureSheetState st currentSheet else st
      match updateLoop input rowStart columnStart rowEnd columnEnd currentSheet.cells with
      | .error (e, cells') =>
        .error (e, { st1 with sheet := some { currentSheet with cells := cells' } })
      | .ok cells' =>
        .ok { st1 with sheet := some { currentSheet with cells := cells' } }

/-! ## JS string operations used by the clipboard codec -/

/-- `String.prototype.split` with a single-character separator, on a
character list: split points at every occurrence of the separator, always
yielding at least one (possibly empty) piece. -/
def splitCharList (sep : Char) : List Char → List (List Char)
  | [] => [[]]
  | c :: cs =>
    match splitCharList sep cs with
    | [] => [[]]
    | h :: t => if c = sep then [] :: h :: t else (c :: h) :: t

/-- `s.split(sep)` for a one-character separator. -/
def jsSplit (sep : Char) (s : String) : List String :=
  (splitCharList sep s.toList).map (fun l => String.mk l)

/-- `Array.prototype.join` with a one-character separator, on character
lists. -/
def joinCharSep (sep : Char) : List (List Char) → List Char
  | [] => []
  | [x] => x
  | x :: y :: rest => x ++ sep :: joinCharSep sep (y :: rest)

/-- `pieces.join(sep)` for a one-character separator. -/
def jsJoin (sep : Char) (pieces : List String) : String :=
  String.mk (joinCharSep sep (pieces.map String.toList))

/-- `s.includes(c)` for a one-character needle. -/
def jsIncludes (c : Char) (s : String) : Bool :=
  s.toList.contains c

/-- `s.replace(/\t/g, ' ')` (`clipboard.service.ts` line 37). -/
def replaceTabsWithSpaces (s : String) : String :=
  String.mk (s.toList.map (fun c => if c = '\t' then ' ' else c))

/-- `ClipboardService.parseCSVLine` (`clipboard.service.ts` lines
141–166): quote-aware field splitting — a `"` toggles the in-quotes flag
and is not retained, a tab outside quotes ends a field, everything else
is appended to the current field. -/
def parseCSVLine (line : String) : List String :=
  let fin := line.toList.foldl
    (fun (acc : List String × List Char × Bool) c =>
      let (res, cur, inQuotes) := acc
      if c = '"' then (res, cur, !inQuotes)
      else if c = '\t' && !inQuotes then (res ++ [String.mk cur.reverse], [], inQuotes)
      else (res, c :: cur, inQuotes))
    ([], [], false)
  fin.1 ++ [String.mk fin.2.1.reverse]

/-! ## Interaction state (`state.service.ts`)

Only the pieces the claims observe: the selection, the copy highlight
and the marching-ants flag.  `updateSelection` / `updateCopyHighlight`
merge partial state; the call sites modelled here always pass a full
range, so they are modelled as full-range assignments. -/

structure AppState where
  data : DataState
  selection : Range
  copyHighlight : Range
  marchingAnts : Bool
  deriving Repr, DecidableEq

/-- The "no selection" sentinel range (`start.row < 0`). -/
def noRange : Range :=
  { start := { row := -1, col := -1 }, end_ := { row := -1, col := -1 } }

/-! ## Clipboard codec (`clipboard.service.ts`) -/

/-- The serialisation loop of `ClipboardService.copy` (lines 28–43):
join the range's cell texts with tabs (tabs inside a cell replaced by
spaces) and its rows with newlines.  `sheet.cells[row][col].value` on a
missing row or cell throws (this happens outside the `try`, so it
escapes `copy`). -/
def serializeRange (sheet : Sheet) (range : Range) : Except String String :=
  ((intRange range.start.row range.end_.row).mapM (fun row =>
    ((intRange range.start.col range.end_.col).mapM (fun col =>
      match jsGet2? sheet.cells row col with
      | none => Except.error "TypeError: cell is undefined"
      | some cell => Except.ok (replaceTabsWithSpaces cell.value.displayString))
     : Except String (List String)).map
      (fun rowValues => jsJoin '\t' rowValues))).map
    (fun rowStrings => jsJoin '\n' rowStrings)

/-- `ClipboardService.copy` (lines 28–53) after serialisation: the host
clipboard write result is a parameter (the asynchronous boundary).  On
success the copy highlight is set to the range and marching ants are
enabled; a rejected write is caught and logged, leaving the state
unchanged. -/
def copy (st : AppState) (sheet : Sheet) (range : Range)
    (writeResult : Except String Unit) : Except String AppState :=
  match serializeRange sheet range with
  | .error e => .error e
  | .ok _copiedData =>
    match writeResult with
    | .error _ => .ok st
    | .ok _ => .ok { st with copyHighlight := range, marchingAnts := true }

/-- The line-parsing step of `ClipboardService.paste` (lines 78–86): a
line containing both a quote and a comma is parsed as quoted CSV,
otherwise it is split on tabs. -/
def parseClipboardLine (line : String) : List String :=
  if jsIncludes '"' line && jsIncludes ',' line then parseCSVLine line
  else jsSplit '\t' line

/-- The parsed clipboard block of `ClipboardService.paste`:
`text.split('\n')` mapped through the line parser. -/
def parseClipboard (text : String) : List (List String) :=
  (jsSplit '\n' text).map parseClipboardLine

/-- `Math.max(...copiedData.map(row => row.length))` — the block width.
(`Math.max` of a nonempty list of nonnegative numbers equals a fold of
`max` from `0`; the list is never empty here since `split` yields at
least one line.) -/
def maxRowLength (block : List (List String)) : Nat :=
  (block.map List.length).foldl Nat.max 0

/-- The `(pasteWidth, pasteHeight)` choice of `ClipboardService.paste`
(lines 96–102): the copied block's dimensions when the destination
selection is a single cell, the destination selection's dimensions
otherwise. -/
def pasteDims (range : Range) (copyWidth copyHeight : Nat) : Int × Int :=
  let selectionHeight : Int := range.end_.row - range.start.row + 1
  let selectionWidth : Int := range.end_.col - range.start.col + 1
  if selectionHeight = 1 ∧ selectionWidth = 1 then
    ((copyWidth : Int), (copyHeight : Int))
  else (selectionWidth, selectionHeight)

/-- `copiedData[row % copyHeight][col % copyWidth]` — the tiled source
entry feeding destination offset `(i, j)`; `none` models the JS
`undefined` read when the tiled row is shorter than the block width. -/
def tileEntry (block : List (List String)) (copyHeight copyWidth i j : Nat) :
    Option String :=
  (block.get? (i % copyHeight)).bind (fun rw2 => rw2.get? (j % copyWidth))

/-- `ClipboardService.paste` (lines 69–136).  The host clipboard read
result is a parameter.  A rejected read is caught with no state change;
empty text aborts.  Otherwise the block is parsed, the paste dimensions
are the block's for a single-cell destination and the destination's
otherwise, the paste data is built by tiling
(`copiedData[row % copyHeight][col % copyWidth]`, a JS `undefined` hole
when the tiled row is shorter than the block width), and the rectangle
is written through `updateCellValues` (recording one undo snapshot).  On
success marching ants are cleared, the copy highlight reset and the
selection set to the pasted rectangle; a `TypeError` thrown by the
update is caught, keeping the mutations made before the throw. -/
def paste (st : AppState) (readResult : Except String String) (range : Range) :
    AppState :=
  match readResult with
  | .error _ => st
  | .ok text =>
    if text = "" then st
    else
      let lines := jsSplit '\n' text
      let copiedData := lines.map parseClipboardLine
      let copyHeight := lines.length
      let copyWidth := maxRowLength copiedData
      let pd := pasteDims range copyWidth copyHeight
      let pasteWidth := pd.1
      let pasteHeight := pd.2
      let pasteData : List (List (Option JSVal)) :=
        (List.range pasteHeight.toNat).map (fun row =>
          (List.range pasteWidth.toNat).map (fun col =>
            (tileEntry copiedData copyHeight copyWidth row col).map .str))
      let pasteRange : Range :=
        { start := range.start,
          end_ := { row := range.start.row + pasteHeight - 1,
                    col := range.start.col + pasteWidth - 1 } }
      match updateCellValues st.data pasteRange.start.row pasteRange.start.col
              (.matrix pasteData) true with
      | .error (_, data') => { st with data := data' }
      | .ok data' =>
        { st with
          data := data',
          marchingAnts := false,
          copyHighlight := noRange,
          selection := pasteRange }

/-! ## Event router branches (`event.service.ts`) -/

/-- The `Ctrl/Cmd+Z` branch of `EventService.onKeyDown` (lines 228–237):
pop the undo stack; when non-null, collect the restored sheet's cell
values and re-apply them at `(0,0)` with `recordUndo = false`.  A
`TypeError` thrown by the bulk update escapes the handler. -/
def onKeyDownUndo (st : DataState) : Except (String × DataState) DataState :=
  match undoPop st with
  | (none, st') => .ok st'
  | (some undoneSheet, st') =>
    let cellValues : List (List (Option JSVal)) :=
      undoneSheet.cells.map (fun row => row.map (fun cell => some cell.value))
    updateCellValues st' 0 0 (.matrix cellValues) false

/-- The `Delete` branch of `EventService.onKeyDown` (lines 270–288),
reached only when the edit box is disabled and an active cell exists:
for every cell of the normalized selection, one scalar
`updateCellValues(row, col, '')` call, each recording its own undo
snapshot. -/
def onKeyDownDelete (st : DataState) (selection : Range)
    (inputDisabled : Bool) (hasActiveCell : Bool) :
    Except (String × DataState) DataState :=
  if !hasActiveCell then .ok st
  else if !inputDisabled then .ok st
  else
    let startRow := min selection.start.row selection.end_.row
    let endRow := max selection.start.row selection.end_.row
    let startCol := min selection.start.col selection.end_.col
    let endCol := max selection.start.col selection.end_.col
    (intRange startRow endRow).foldlM (fun s row =>
      (intRange startCol endCol).foldlM (fun s2 col =>
        updateCellValues s2 row col (.scalar (.str "")) true) s) st

/-- The mouse-mode enum of `state.service.ts`. -/
inductive MouseMode where
  | DEFAULT
  | SELECTING_CELLS
  | RESIZING_COLUMN
  | RESIZING_ROW
  | DRAG_FILL
  deriving Repr, DecidableEq

/-- The resize transient of `state.service.ts`. -/
structure ResizeState where
  resizingRowIndex : Option Int := none
  resizingColumnIndex : Option Int := none
  originalSize : Option Int := none
  startPointerPos : Option Int := none
  deriving Repr, DecidableEq

/-- `EventService.handleResizeDrag` (lines 342–385), restricted to its
effect on the sheet's column widths and row heights (the edit-box resize
side effect is not observed by the claims).  In `RESIZING_COLUMN` with a
recorded column index, `newWidth = originalSize + (clientX -
startPointerPos)` is written only when `newWidth > 10`
(`sheet.columns[i].width = ...` on a missing index throws); the row case
is symmetric with `clientY`. -/
def handleResizeDrag (mode : MouseMode) (rs : ResizeState)
    (sheet : Sheet) (clientX clientY : Int) : Except String Sheet :=
  if mode = .RESIZING_COLUMN ∧ rs.resizingColumnIndex ≠ none then
    match rs.resizingColumnIndex with
    | none => .ok sheet
    | some colIndex =>
      let delta := clientX - (rs.startPointerPos.getD 0)
      let newWidth := (rs.originalSize.getD 0) + delta
      if newWidth > 10 then
        match jsGet? sheet.columns colIndex with
        | none => .error "TypeError: cannot set width of undefined"
        | some _ => .ok { sheet with
            columns := jsSet sheet.columns colIndex { width := newWidth } }
      else .ok sheet
  else if mode = .RESIZING_ROW ∧ rs.resizingRowIndex ≠ none then
    match rs.resizingRowIndex with
    | none => .ok sheet
    | some rowIndex =>
      let delta := clientY - (rs.startPointerPos.getD 0)
      let newHeight := (rs.originalSize.getD 0) + delta
      if newHeight > 10 then
        match jsGet? sheet.rows rowIndex with
        | none => .error "TypeError: cannot set height of undefined"
        | some _ => .ok { sheet with
            rows := jsSet sheet.rows rowIndex { height := newHeight } }
      else .ok sheet
  else .ok sheet

/-! ## Basic lemmas: JS array access -/

theorem isSome_getElem?_iff {α : Type} (l : List α) (i : Nat) :
    l[i]?.isSome ↔ i < l.length := by
  rw [Option.isSome_iff_exists]
  simp only [List.getElem?_eq_some_iff]
  exact ⟨fun ⟨_, h, _⟩ => h, fun h => ⟨l[i], h, rfl⟩⟩

theorem jsGet?_isSome_iff {α : Type} (l : List α) (i : Int) :
    (jsGet? l i).isSome ↔ 0 ≤ i ∧ i.toNat < l.length := by
  unfold jsGet?
  split
  · simp; omega
  · rw [List.get?_eq_getElem?, isSome_getElem?_iff]
    omega

theorem length_jsSet {α : Type} (l : List α) (i : Int) (a : α) :
    (jsSet l i a).length = l.length := by
  unfold jsSet; split <;> simp

theorem jsGet?_jsSet {α : Type} (l : List α) (i j : Int) (a : α) :
    jsGet? (jsSet l i a) j =
      if i = j ∧ (jsGet? l i).isSome then some a else jsGet? l j := by
  simp only [jsGet?, jsSet, List.get?_eq_getElem?]
  by_cases hi : i < 0
  · simp [hi]
  · by_cases hj : j < 0
    · simp only [if_neg hi, if_pos hj]
      rw [if_neg (by rintro ⟨rfl, _⟩; exact hi hj)]
    · simp only [if_neg hi, if_neg hj]
      rw [List.getElem?_set]
      rcases eq_or_ne i j with rfl | hne
      · simp only [if_pos rfl, isSome_getElem?_iff, true_and]
        by_cases hlen : i.toNat < l.length
        · simp [hlen]
        · simp [hlen, List.getElem?_eq_none (by omega : l.length ≤ i.toNat)]
      · rw [if_neg (by omega : ¬ i.toNat = j.toNat),
          if_neg (by rintro ⟨rfl, _⟩; exact hne rfl)]

theorem jsGet2?_eq {α : Type} (l : List (List α)) (r c : Int) :
    jsGet2? l r c = match jsGet? l r with
      | none => none
      | some row => jsGet? row c := rfl

theorem jsGet?_jsSet2_other {α : Type} (l : List (List α)) (r c : Int) (a : α)
    (r' : Int) (h : r' ≠ r) : jsGet? (jsSet2 l r c a) r' = jsGet? l r' := by
  unfold jsSet2
  cases hrow : jsGet? l r with
  | none => rfl
  | some rowCells =>
    rw [jsGet?_jsSet]
    rw [if_neg (by rintro ⟨h1, _⟩; exact h h1.symm)]

theorem length_jsSet2 {α : Type} (l : List (List α)) (r c : Int) (a : α) :
    (jsSet2 l r c a).length = l.length := by
  unfold jsSet2
  cases jsGet? l r with
  | none => rfl
  | some rowCells => exact length_jsSet ..

theorem rowLengths_jsSet2 {α : Type} (l : List (List α)) (r c : Int) (a : α)
    (r' : Int) :
    (jsGet? (jsSet2 l r c a) r').map List.length = (jsGet? l r').map List.length := by
  unfold jsSet2
  cases hrow : jsGet? l r with
  | none => rfl
  | some rowCells =>
    rw [jsGet?_jsSet]
    split
    · rename_i h
      rw [← h.1, hrow]
      simp [length_jsSet]
    · rfl

theorem jsGet2?_jsSet2 {α : Type} (l : List (List α)) (r c : Int) (a : α)
    (r' c' : Int) :
    jsGet2? (jsSet2 l r c a) r' c' =
      if r = r' ∧ c = c' ∧ (jsGet2? l r c).isSome then some a
      else jsGet2? l r' c' := by
  by_cases hr : r = r'
  · subst hr
    cases hrow : jsGet? l r with
    | none =>
      simp [jsGet2?, jsSet2, hrow]
    | some rowCells =>
      simp only [jsGet2?, jsSet2, hrow, jsGet?_jsSet]
      simp only [hrow, Option.isSome_some, and_true, if_pos rfl, true_and]
      exact jsGet?_jsSet rowCells c c' a
  · rw [if_neg (by rintro ⟨h1, _⟩; exact hr h1)]
    unfold jsGet2?
    rw [jsGet?_jsSet2_other l r c a r' (Ne.symm hr)]

/-! ## Basic lemmas: loop index ranges -/

theorem mem_intRangeAux {a x : Int} {n : Nat} :
    x ∈ intRangeAux a n ↔ a ≤ x ∧ x < a + (n : Int) := by
  induction n generalizing a with
  | zero => simp [intRangeAux]
  | succ m ih =>
    simp only [intRangeAux, List.mem_cons, ih]
    omega

theorem mem_intRange {a b x : Int} : x ∈ intRange a b ↔ a ≤ x ∧ x ≤ b := by
  unfold intRange
  rw [mem_intRangeAux]
  omega

theorem nodup_intRangeAux {a : Int} {n : Nat} : (intRangeAux a n).Nodup := by
  induction n generalizing a with
  | zero => simp [intRangeAux]
  | succ m ih =>
    simp only [intRangeAux, List.nodup_cons]
    exact ⟨fun hmem => by rw [mem_intRangeAux] at hmem; omega, ih⟩

theorem nodup_intRange (a b : Int) : (intRange a b).Nodup :=
  nodup_intRangeAux

/-! ## The update loop as a pointwise transformation -/

theorem except_bind_ok {ε α β : Type} (a : α) (f : α → Except ε β) :
    (Except.ok a >>= f) = f a := rfl

theorem except_bind_error {ε α β : Type} (e : ε) (f : α → Except ε β) :
    ((Except.error e : Except ε α) >>= f) = .error e := rfl

/-- The effect of one loop iteration of `updateCellValues` on the cell it
visits, assuming the iteration does not throw: the scalar branch applies
`handleInput input`, the array branch applies
`handleInput (input[row - rowStart][col - colStart] ?? '')`. -/
def cellTransform (inp : UpdateInput) (rowStart colStart row col : Int)
    (cell : Cell) : Cell :=
  if inp.isSingleValue then
    match inp with
    | .scalar v => cell.handleInput v
    | .matrix _ => cell
  else
    match inp.entry (row - rowStart) (col - colStart) with
    | .error _ => cell
    | .ok v => cell.handleInput (coalesceEmpty v)

theorem writeCellStep_ok (inp : UpdateInput) (rowStart colStart : Int)
    (cells : List (List Cell)) (row col : Int)
    (hrow : (jsGet? cells row).isSome)
    (hsafe : inp.isSingleValue = true ∨
      (inp.entry (row - rowStart) (col - colStart)).isOk = true) :
    ∃ cells',
      writeCellStep inp rowStart colStart cells row col = .ok cells' ∧
      (∀ r', r' ≠ row → jsGet? cells' r' = jsGet? cells r') ∧
      (∀ c', jsGet2? cells' row c' =
        if c' = col then
          (jsGet2? cells row col).map (cellTransform inp rowStart colStart row col)
        else jsGet2? cells row c') ∧
      cells'.length = cells.length ∧
      (∀ r', (jsGet? cells' r').map List.length = (jsGet? cells r').map List.length) := by
  obtain ⟨rowCells, hrowEq⟩ := Option.isSome_iff_exists.mp hrow
  have hget2 : ∀ c', jsGet2? cells row c' = jsGet? rowCells c' := by
    intro c'; rw [jsGet2?_eq, hrowEq]
  cases hcell : jsGet? rowCells col with
  | none =>
    refine ⟨cells, ?_, fun _ _ => rfl, ?_, rfl, fun _ => rfl⟩
    · simp only [writeCellStep, hrowEq, hcell]
    · intro c'
      split
      · rename_i hc; subst hc
        rw [hget2 c', hcell]; rfl
      · rfl
  | some cell =>
    have hup : ∃ newCell,
        writeCellStep inp rowStart colStart cells row col =
          .ok (jsSet2 cells row col newCell) ∧
        newCell = cellTransform inp rowStart colStart row col cell := by
      cases hsv : inp.isSingleValue with
      | true =>
        cases inp with
        | scalar v =>
          refine ⟨cell.handleInput v, ?_, ?_⟩
          · simp only [writeCellStep, hrowEq, hcell, hsv, if_true]
          · simp only [cellTransform, hsv, if_true]
        | matrix m => simp [UpdateInput.isSingleValue] at hsv
      | false =>
        rcases hsafe with h | h
        · rw [hsv] at h; exact absurd h (by simp)
        · rcases hok : inp.entry (row - rowStart) (col - colStart) with e | v
          · rw [hok] at h; simp [Except.isOk, Except.toBool] at h
          · refine ⟨cell.handleInput (coalesceEmpty v), ?_, ?_⟩
            · simp only [writeCellStep, hrowEq, hcell, hsv, Bool.false_eq_true,
                if_false, hok]
            · simp only [cellTransform, hsv, Bool.false_eq_true, if_false, hok]
    obtain ⟨newCell, hstep, hnew⟩ := hup
    refine ⟨jsSet2 cells row col newCell, hstep, ?_, ?_, length_jsSet2 .., fun r' => rowLengths_jsSet2 ..⟩
    · intro r' hne
      exact jsGet?_jsSet2_other cells row col newCell r' hne
    · intro c'
      rw [jsGet2?_jsSet2]
      have hsome : (jsGet2? cells row col).isSome := by
        rw [hget2, hcell]; rfl
      split
      · rename_i h
        rw [if_pos h.2.1.symm, hget2, hcell, hnew]
        rfl
      · rename_i h
        rw [if_neg]
        intro hc
        exact h ⟨rfl, hc.symm, hsome⟩

/-- The inner column loop of `updateCellValues`, over an arbitrary
duplicate-free list of column indices: it succeeds and transforms exactly
the visited cells of the visited row. -/
theorem colsFold_ok (inp : UpdateInput) (rowStart colStart : Int)
    (cols : List Int) (hnd : cols.Nodup)
    (cells : List (List Cell)) (row : Int)
    (hrow : (jsGet? cells row).isSome)
    (hsafe : inp.isSingleValue = true ∨
      ∀ col ∈ cols, (inp.entry (row - rowStart) (col - colStart)).isOk = true) :
    ∃ cells',
      (cols.foldlM (fun cs2 col => writeCellStep inp rowStart colStart cs2 row col)
        cells) = .ok cells' ∧
      (∀ r', r' ≠ row → jsGet? cells' r' = jsGet? cells r') ∧
      (∀ c', jsGet2? cells' row c' =
        if c' ∈ cols then
          (jsGet2? cells row c').map (cellTransform inp rowStart colStart row c')
        else jsGet2? cells row c') ∧
      cells'.length = cells.length ∧
      (∀ r', (jsGet? cells' r').map List.length = (jsGet? cells r').map List.length) := by
  induction cols generalizing cells with
  | nil =>
    refine ⟨cells, rfl, fun _ _ => rfl, ?_, rfl, fun _ => rfl⟩
    intro c'
    rw [if_neg (List.not_mem_nil c')]
  | cons col rest ih =>
    rw [List.nodup_cons] at hnd
    obtain ⟨cells1, hstep, hother1, hvis1, hlen1, hrl1⟩ :=
      writeCellStep_ok inp rowStart colStart cells row col hrow
        (hsafe.imp id (fun h => h col (List.mem_cons_self ..)))
    have hrow1 : (jsGet? cells1 row).isSome := by
      have := hrl1 row
      cases h1 : jsGet? cells1 row <;> cases h2 : jsGet? cells row <;>
        rw [h1, h2] at this <;> simp_all
    obtain ⟨cells', hfold, hother, hvis, hlen, hrl⟩ :=
      ih hnd.2 cells1 hrow1
        (hsafe.imp id (fun h col' hmem => h col' (List.mem_cons_of_mem _ hmem)))
    refine ⟨cells', ?_, ?_, ?_, by omega, ?_⟩
    · rw [List.foldlM_cons, hstep, except_bind_ok, hfold]
    · intro r' hne
      rw [hother r' hne, hother1 r' hne]
    · intro c'
      by_cases hc : c' ∈ col :: rest
      · rw [if_pos hc]
        rcases List.mem_cons.mp hc with rfl | hcr
        · have hnotr : c' ∉ rest := hnd.1
          rw [hvis c', if_neg hnotr, hvis1 c', if_pos rfl]
        · have hne : c' ≠ col := fun h => hnd.1 (h ▸ hcr)
          rw [hvis c', if_pos hcr, hvis1 c', if_neg hne]
      · rw [if_neg hc]
        have h1 : c' ≠ col := fun h => hc (h ▸ List.mem_cons_self ..)
        have h2 : c' ∉ rest := fun h => hc (List.mem_cons_of_mem _ h)
        rw [hvis c', if_neg h2, hvis1 c', if_neg h1]
    · intro r'
      rw [hrl r', hrl1 r']

/-- The full nested update loop of `updateCellValues`, over arbitrary
duplicate-free lists of row and column indices whose rows all exist:
it succeeds and transforms exactly the visited rectangle. -/
theorem rowsFold_ok (inp : UpdateInput) (rowStart colStart : Int)
    (rows cols : List Int) (hndr : rows.Nodup) (hndc : cols.Nodup)
    (cells : List (List Cell))
    (hrows : ∀ row ∈ rows, (jsGet? cells row).isSome)
    (hsafe : inp.isSingleValue = true ∨
      ∀ row ∈ rows, ∀ col ∈ cols,
        (inp.entry (row - rowStart) (col - colStart)).isOk = true) :
    ∃ cells',
      (rows.foldlM (fun cs row =>
        cols.foldlM (fun cs2 col => writeCellStep inp rowStart colStart cs2 row col) cs)
        cells) = .ok cells' ∧
      (∀ r c, jsGet2? cells' r c =
        if r ∈ rows ∧ c ∈ cols then
          (jsGet2? cells r c).map (cellTransform inp rowStart colStart r c)
        else jsGet2? cells r c) ∧
      cells'.length = cells.length ∧
      (∀ r, (jsGet? cells' r).map List.length = (jsGet? cells r).map List.length) := by
  induction rows generalizing cells with
  | nil =>
    refine ⟨cells, rfl, ?_, rfl, fun _ => rfl⟩
    intro r c
    rw [if_neg (by rintro ⟨h, _⟩; exact List.not_mem_nil r h)]
  | cons row rest ih =>
    rw [List.nodup_cons] at hndr
    obtain ⟨cells1, hstep, hother1, hvis1, hlen1, hrl1⟩ :=
      colsFold_ok inp rowStart colStart cols hndc cells row
        (hrows row (List.mem_cons_self ..))
        (hsafe.imp id (fun h => h row (List.mem_cons_self ..)))
    have hrows1 : ∀ r ∈ rest, (jsGet? cells1 r).isSome := by
      intro r hr
      have h := hrl1 r
      have h2 := hrows r (List.mem_cons_of_mem _ hr)
      cases hx : jsGet? cells1 r with
      | some _ => rfl
      | none =>
        rw [hx] at h
        cases hy : jsGet? cells r with
        | none => rw [hy] at h2; exact absurd h2 (by simp)
        | some _ => rw [hy] at h; simp at h
    obtain ⟨cells', hfold, hvis, hlen, hrl⟩ :=
      ih hndr.2 cells1 hrows1
        (hsafe.imp id (fun h r hmem => h r (List.mem_cons_of_mem _ hmem)))
    refine ⟨cells', ?_, ?_, by omega, ?_⟩
    · rw [List.foldlM_cons, hstep, except_bind_ok, hfold]
    · intro r c
      have hcells1 : ∀ c', jsGet2? cells1 r c' =
          if r = row ∧ c' ∈ cols then
            (jsGet2? cells r c').map (cellTransform inp rowStart colStart r c')
          else jsGet2? cells r c' := by
        intro c'
        rcases eq_or_ne r row with rfl | hner
        · rw [hvis1 c']
          by_cases hcc : c' ∈ cols
          · rw [if_pos hcc, if_pos ⟨rfl, hcc⟩]
          · rw [if_neg hcc, if_neg (by rintro ⟨_, hx⟩; exact hcc hx)]
        · rw [jsGet2?_eq, hother1 r hner,
            if_neg (by rintro ⟨hx, _⟩; exact hner hx)]
          rfl
      rw [hvis r c, hcells1 c]
      by_cases hr : r ∈ row :: rest
      · rcases List.mem_cons.mp hr with rfl | hrr
        · have hnotr : r ∉ rest := hndr.1
          by_cases hcc : c ∈ cols
          · rw [if_neg (by rintro ⟨hx, _⟩; exact hnotr hx),
              if_pos ⟨rfl, hcc⟩, if_pos ⟨hr, hcc⟩]
          · rw [if_neg (by rintro ⟨hx, _⟩; exact hnotr hx),
              if_neg (by rintro ⟨_, hx⟩; exact hcc hx),
              if_neg (by rintro ⟨_, hx⟩; exact hcc hx)]
        · have hner : r ≠ row := fun h => hndr.1 (h ▸ hrr)
          by_cases hcc : c ∈ cols
          · rw [if_pos ⟨hrr, hcc⟩, if_neg (by rintro ⟨hx, _⟩; exact hner hx),
              if_pos ⟨hr, hcc⟩]
          · rw [if_neg (by rintro ⟨_, hx⟩; exact hcc hx),
              if_neg (by rintro ⟨hx, _⟩; exact hner hx),
              if_neg (by rintro ⟨_, hx⟩; exact hcc hx)]
      · have h1 : r ≠ row := fun h => hr (h ▸ List.mem_cons_self ..)
        have h2 : r ∉ rest := fun h => hr (List.mem_cons_of_mem _ h)
        rw [if_neg (by rintro ⟨hx, _⟩; exact h2 hx),
          if_neg (by rintro ⟨hx, _⟩; exact h1 hx),
          if_neg (by rintro ⟨hx, _⟩; exact hr hx)]
    · intro r
      rw [hrl r, hrl1 r]

/-- Specification of a successful `updateCellValues` call: the sheet's
identity, columns and rows are kept, the undo snapshot is pushed exactly
when `recordUndo`, and the cells of the target rectangle are transformed
pointwise. -/
theorem updateCellValues_ok_spec
    (st : DataState) (sheet : Sheet) (rowStart colStart : Int)
    (inp : UpdateInput) (recordUndo : Bool) (colEnd : Int)
    (hsheet : st.sheet = some sheet)
    (hcolEnd : inputColumnEnd inp colStart = .ok colEnd)
    (hrows : ∀ row ∈ intRange rowStart (inputRowEnd inp rowStart),
      (jsGet? sheet.cells row).isSome)
    (hsafe : inp.isSingleValue = true ∨
      ∀ row ∈ intRange rowStart (inputRowEnd inp rowStart),
      ∀ col ∈ intRange colStart colEnd,
        (inp.entry (row - rowStart) (col - colStart)).isOk = true) :
    ∃ cells',
      updateCellValues st rowStart colStart inp recordUndo =
        .ok { sheet := some { sheet with cells := cells' },
              history := if recordUndo then cloneSheet sheet :: st.history
                         else st.history } ∧
      (∀ r c, jsGet2? cells' r c =
        if rowStart ≤ r ∧ r ≤ inputRowEnd inp rowStart ∧ colStart ≤ c ∧ c ≤ colEnd then
          (jsGet2? sheet.cells r c).map (cellTransform inp rowStart colStart r c)
        else jsGet2? sheet.cells r c) ∧
      cells'.length = sheet.cells.length ∧
      (∀ r, (jsGet? cells' r).map List.length =
        (jsGet? sheet.cells r).map List.length) := by
  obtain ⟨cells', hfold, hvis, hlen, hrl⟩ :=
    rowsFold_ok inp rowStart colStart (intRange rowStart (inputRowEnd inp rowStart))
      (intRange colStart colEnd) (nodup_intRange ..) (nodup_intRange ..)
      sheet.cells hrows hsafe
  refine ⟨cells', ?_, ?_, hlen, hrl⟩
  · unfold updateCellValues updateLoop
    rw [hcolEnd, hsheet]
    simp only []
    rw [hfold]
    cases recordUndo <;> simp [captureSheetState]
  · intro r c
    rw [hvis r c]
    by_cases h : rowStart ≤ r ∧ r ≤ inputRowEnd inp rowStart ∧ colStart ≤ c ∧ c ≤ colEnd
    · rw [if_pos ⟨mem_intRange.mpr ⟨h.1, h.2.1⟩, mem_intRange.mpr ⟨h.2.2.1, h.2.2.2⟩⟩,
        if_pos h]
    · rw [if_neg h, if_neg]
      rintro ⟨h1, h2⟩
      rw [mem_intRange] at h1 h2
      exact h ⟨h1.1, h1.2, h2.1, h2.2⟩

/-- Shape preservation of one non-throwing loop iteration. -/
theorem writeCellStep_shape (inp : UpdateInput) (rowStart colStart : Int)
    (cells cells' : List (List Cell)) (row col : Int)
    (h : writeCellStep inp rowStart colStart cells row col = .ok cells') :
    cells'.length = cells.length ∧
    (∀ r', (jsGet? cells' r').map List.length = (jsGet? cells r').map List.length) := by
  unfold writeCellStep at h
  split at h
  · exact absurd h (by simp)
  · split at h
    · cases h; exact ⟨rfl, fun _ => rfl⟩
    · split at h
      · split at h
        · cases h; exact ⟨length_jsSet2 .., fun r' => rowLengths_jsSet2 ..⟩
        · cases h; exact ⟨rfl, fun _ => rfl⟩
      · split at h
        · exact absurd h (by simp)
        · cases h; exact ⟨length_jsSet2 .., fun r' => rowLengths_jsSet2 ..⟩

/-- Shape preservation of a non-throwing inner column loop. -/
theorem colsFold_shape (inp : UpdateInput) (rowStart colStart : Int)
    (cols : List Int) (cells cells' : List (List Cell)) (row : Int)
    (h : (cols.foldlM (fun cs2 col => writeCellStep inp rowStart colStart cs2 row col)
      cells) = .ok cells') :
    cells'.length = cells.length ∧
    (∀ r', (jsGet? cells' r').map List.length = (jsGet? cells r').map List.length) := by
  induction cols generalizing cells with
  | nil => cases h; exact ⟨rfl, fun _ => rfl⟩
  | cons col rest ih =>
    rw [List.foldlM_cons] at h
    cases hstep : writeCellStep inp rowStart colStart cells row col with
    | error e => rw [hstep, except_bind_error] at h; exact absurd h (by simp)
    | ok cells1 =>
      rw [hstep, except_bind_ok] at h
      obtain ⟨hl1, hr1⟩ := writeCellStep_shape inp rowStart colStart cells cells1 row col hstep
      obtain ⟨hl2, hr2⟩ := ih cells1 h
      exact ⟨by omega, fun r' => (hr2 r').trans (hr1 r')⟩

/-- Shape preservation of a non-throwing update loop. -/
theorem updateLoop_shape (inp : UpdateInput) (rowStart colStart rowEnd colEnd : Int)
    (cells cells' : List (List Cell))
    (h : updateLoop inp rowStart colStart rowEnd colEnd cells = .ok cells') :
    cells'.length = cells.length ∧
    (∀ r', (jsGet? cells' r').map List.length = (jsGet? cells r').map List.length) := by
  unfold updateLoop at h
  generalize hrows : intRange rowStart rowEnd = rows at h
  clear hrows
  induction rows generalizing cells with
  | nil => cases h; exact ⟨rfl, fun _ => rfl⟩
  | cons row rest ih =>
    rw [List.foldlM_cons] at h
    cases hstep : (intRange colStart colEnd).foldlM
        (fun cs2 col => writeCellStep inp rowStart colStart cs2 row col) cells with
    | error e => rw [hstep, except_bind_error] at h; exact absurd h (by simp)
    | ok cells1 =>
      rw [hstep, except_bind_ok] at h
      obtain ⟨hl1, hr1⟩ := colsFold_shape inp rowStart colStart _ cells cells1 row hstep
      obtain ⟨hl2, hr2⟩ := ih cells1 h
      exact ⟨by omega, fun r' => (hr2 r').trans (hr1 r')⟩

/-- Inversion of any successful `updateCellValues` call on a present
sheet: the result keeps the sheet's columns, rows and cell-matrix shape,
and pushes the pre-mutation snapshot exactly when `recordUndo`. -/
theorem updateCellValues_ok_inversion
    (st : DataState) (sheet : Sheet) (rowStart colStart : Int)
    (inp : UpdateInput) (recordUndo : Bool) (st' : DataState)
    (hsheet : st.sheet = some sheet)
    (h : updateCellValues st rowStart colStart inp recordUndo = .ok st') :
    ∃ cells',
      st' = { sheet := some { sheet with cells := cells' },
              history := if recordUndo then cloneSheet sheet :: st.history
                         else st.history } ∧
      cells'.length = sheet.cells.length ∧
      (∀ r, (jsGet? cells' r).map List.length =
        (jsGet? sheet.cells r).map List.length) := by
  unfold updateCellValues at h
  cases hce : inputColumnEnd inp colStart with
  | error e => rw [hce] at h; exact absurd h (by simp)
  | ok colEnd =>
    rw [hce, hsheet] at h
    simp only [] at h
    cases hloop : updateLoop inp rowStart colStart (inputRowEnd inp rowStart)
        colEnd sheet.cells with
    | error p => rw [hloop] at h; exact absurd h (by cases p; simp)
    | ok cells' =>
      rw [hloop] at h
      cases h
      obtain ⟨hl, hr⟩ := updateLoop_shape inp rowStart colStart _ _ sheet.cells cells' hloop
      exact ⟨cells', by cases recordUndo <;> simp [captureSheetState], hl, hr⟩

/-- `input[i][j]` for a 2D-array input with `i` in range: the JS result,
`undefined` when row `i` is shorter than `j + 1`. -/
def matrixEntryAt (m : List (List (Option JSVal))) (i j : Int) : Option JSVal :=
  match jsGet? m i with
  | none => none
  | some row => (jsGet? row j).join

theorem entry_matrix_ok (m : List (List (Option JSVal))) (i j : Int)
    (h0 : 0 ≤ i) (hlt : i < (m.length : Int)) :
    (UpdateInput.matrix m).entry i j = .ok (matrixEntryAt m i j) := by
  have hs : (jsGet? m i).isSome := (jsGet?_isSome_iff ..).mpr ⟨h0, by omega⟩
  obtain ⟨row, hrow⟩ := Option.isSome_iff_exists.mp hs
  simp [UpdateInput.entry, matrixEntryAt, hrow]

/-- `updateCellValues` with a (nonempty) 2D-array input: the target
rectangle spans `input.length` rows and `input[0].length` columns from
the start position, and each present cell in it receives
`handleInput(input[r - rowStart][c - colStart] ?? '')`. -/
theorem updateCellValues_matrix_ok
    (st : DataState) (sheet : Sheet) (rowStart colStart : Int)
    (row0 : List (Option JSVal)) (mrest : List (List (Option JSVal)))
    (recordUndo : Bool)
    (hsheet : st.sheet = some sheet)
    (hrows : ∀ row ∈ intRange rowStart (rowStart + ((row0 :: mrest).length : Int) - 1),
      (jsGet? sheet.cells row).isSome) :
    ∃ cells',
      updateCellValues st rowStart colStart (.matrix (row0 :: mrest)) recordUndo =
        .ok { sheet := some { sheet with cells := cells' },
              history := if recordUndo then cloneSheet sheet :: st.history
                         else st.history } ∧
      (∀ r c, jsGet2? cells' r c =
        if rowStart ≤ r ∧ r ≤ rowStart + ((row0 :: mrest).length : Int) - 1 ∧
           colStart ≤ c ∧ c ≤ colStart + (row0.length : Int) - 1 then
          (jsGet2? sheet.cells r c).map (fun cell =>
            cell.handleInput (coalesceEmpty
              (matrixEntryAt (row0 :: mrest) (r - rowStart) (c - colStart))))
        else jsGet2? sheet.cells r c) ∧
      cells'.length = sheet.cells.length ∧
      (∀ r, (jsGet? cells' r).map List.length =
        (jsGet? sheet.cells r).map List.length) := by
  have hre : inputRowEnd (.matrix (row0 :: mrest)) rowStart =
      rowStart + ((row0 :: mrest).length : Int) - 1 := rfl
  have hce : inputColumnEnd (.matrix (row0 :: mrest)) colStart =
      .ok (colStart + (row0.length : Int) - 1) := rfl
  obtain ⟨cells', hok, hvis, hlen, hrl⟩ :=
    updateCellValues_ok_spec st sheet rowStart colStart (.matrix (row0 :: mrest))
      recordUndo (colStart + (row0.length : Int) - 1) hsheet hce
      (by rw [hre]; exact hrows)
      (Or.inr (by
        intro row hrow col _
        rw [hre, mem_intRange] at hrow
        rw [entry_matrix_ok (row0 :: mrest) (row - rowStart) (col - colStart)
          (by omega) (by simp only [List.length_cons] at *; omega)]
        rfl))
  refine ⟨cells', hok, ?_, hlen, hrl⟩
  intro r c
  rw [hvis r c, hre]
  by_cases h : rowStart ≤ r ∧ r ≤ rowStart + ((row0 :: mrest).length : Int) - 1 ∧
      colStart ≤ c ∧ c ≤ colStart + (row0.length : Int) - 1
  · rw [if_pos h, if_pos h]
    cases hc : jsGet2? sheet.cells r c with
    | none => rfl
    | some cell =>
      simp only [Option.map_some']
      congr 1
      unfold cellTransform
      rw [if_neg (by simp [UpdateInput.isSingleValue])]
      rw [entry_matrix_ok (row0 :: mrest) (r - rowStart) (c - colStart)
        (by omega) (by simp only [List.length_cons] at *; omega)]
  · rw [if_neg h, if_neg h]

/-- `updateCellValues` with a non-object scalar input: exactly the single
target cell, when present, receives `handleInput input`. -/
theorem updateCellValues_scalar_ok
    (st : DataState) (sheet : Sheet) (rowStart colStart : Int)
    (v : JSVal) (recordUndo : Bool)
    (hsheet : st.sheet = some sheet)
    (hv : v.typeofIsObject = false)
    (hrow : (jsGet? sheet.cells rowStart).isSome) :
    ∃ cells',
      updateCellValues st rowStart colStart (.scalar v) recordUndo =
        .ok { sheet := some { sheet with cells := cells' },
              history := if recordUndo then cloneSheet sheet :: st.history
                         else st.history } ∧
      (∀ r c, jsGet2? cells' r c =
        if r = rowStart ∧ c = colStart then
          (jsGet2? sheet.cells r c).map (fun cell => cell.handleInput v)
        else jsGet2? sheet.cells r c) ∧
      cells'.length = sheet.cells.length ∧
      (∀ r, (jsGet? cells' r).map List.length =
        (jsGet? sheet.cells r).map List.length) := by
  have hre : inputRowEnd (.scalar v) rowStart = rowStart := rfl
  have hce : inputColumnEnd (.scalar v) colStart = .ok colStart := rfl
  have hsv : (UpdateInput.scalar v).isSingleValue = true := by
    simp [UpdateInput.isSingleValue, hv]
  obtain ⟨cells', hok, hvis, hlen, hrl⟩ :=
    updateCellValues_ok_spec st sheet rowStart colStart (.scalar v)
      recordUndo colStart hsheet hce
      (by
        intro row hmem
        rw [hre, mem_intRange] at hmem
        have : row = rowStart := by omega
        rw [this]; exact hrow)
      (Or.inl hsv)
  refine ⟨cells', hok, ?_, hlen, hrl⟩
  intro r c
  rw [hvis r c, hre]
  by_cases h : r = rowStart ∧ c = colStart
  · rw [if_pos (by omega), if_pos h]
    cases hc : jsGet2? sheet.cells r c with
    | none => rfl
    | some cell =>
      simp only [Option.map_some']
      congr 1
      unfold cellTransform
      rw [if_pos hsv]
  · rw [if_neg (by omega), if_neg h]

/-! ## Cell style derivation lemmas -/

theorem updateStyles_value (c : Cell) : c.updateStyles.value = c.value := by
  unfold Cell.updateStyles
  split_ifs <;> rfl

theorem handleInput_value (c : Cell) (v : JSVal) : (c.handleInput v).value = v := by
  unfold Cell.handleInput
  rw [updateStyles_value]

theorem updateStyles_flags (c : Cell) :
    c.updateStyles.isFocused = c.isFocused ∧
    c.updateStyles.isHighlighted = c.isHighlighted ∧
    c.updateStyles.isReferenceCell = c.isReferenceCell := by
  unfold Cell.updateStyles
  split_ifs <;> exact ⟨rfl, rfl, rfl⟩

theorem updateStyles_backgroundColor (c : Cell) :
    c.updateStyles.styles.backgroundColor =
      if c.isFocused then "#d1e0ff"
      else if c.isHighlighted then "#ffe0e0"
      else if c.isReferenceCell then
        (if c.styles.backgroundColor = "white" then "#e0e0e0"
         else c.styles.backgroundColor)
      else "white" := by
  unfold Cell.updateStyles
  split_ifs <;> rfl

theorem updateStyles_idem (c : Cell) :
    c.updateStyles.updateStyles = c.updateStyles := by
  obtain ⟨hf, hh, hr⟩ := updateStyles_flags c
  unfold Cell.updateStyles
  split_ifs with h1 h2 h3 <;> simp_all

/-! ## Concrete fixtures for witnesses and counterexamples -/

/-- A sheet whose cells hold the given values, with matching default
column and row styles. -/
def mkSheet (vals : List (List JSVal)) : Sheet :=
  { cells := vals.map (fun r => r.map (fun v => { value := v })),
    columns := (List.range (vals.headD []).length).map (fun _ => { width := 50 }),
    rows := (List.range vals.length).map (fun _ => { height := 20 }) }

/-- An interaction state around the given sheet with no selection. -/
def mkApp (vals : List (List JSVal)) : AppState :=
  { data := { sheet := some (mkSheet vals), history := [] },
    selection := noRange, copyHighlight := noRange, marchingAnts := true }

/-- `true` exactly when the modelled JS computation threw. -/
def isThrown {ε α : Type} : Except ε α → Bool
  | .error _ => true
  | .ok _ => false

/-! ## Claim C7 -/

/-- C7: while resizing a column (resp. row) with a recorded index,
original size and start pointer position, a pointer move computes
`newSize = originalSize + (currentPointerCoord - startPointerPos)`; a new
size at or below 10 leaves the column width (resp. row height) unchanged
from its value before the move, and a new size above 10 is written
exactly. -/
theorem resize_floor :
    (∀ (rs : ResizeState) (sheet : Sheet) (clientX clientY i orig startP : Int)
      (col : ColumnStyle),
      rs.resizingColumnIndex = some i → rs.originalSize = some orig →
      rs.startPointerPos = some startP → jsGet? sheet.columns i = some col →
      ∃ sheet',
        handleResizeDrag .RESIZING_COLUMN rs sheet clientX clientY = .ok sheet' ∧
        jsGet? sheet'.columns i =
          some (if orig + (clientX - startP) > 10 then
                  { width := orig + (clientX - startP) }
                else col)) ∧
    (∀ (rs : ResizeState) (sheet : Sheet) (clientX clientY i orig startP : Int)
      (row : RowStyle),
      rs.resizingRowIndex = some i → rs.originalSize = some orig →
      rs.startPointerPos = some startP → jsGet? sheet.rows i = some row →
      ∃ sheet',
        handleResizeDrag .RESIZING_ROW rs sheet clientX clientY = .ok sheet' ∧
        jsGet? sheet'.rows i =
          some (if orig + (clientY - startP) > 10 then
                  { height := orig + (clientY - startP) }
                else row)) := by
  constructor
  · intro rs sheet clientX clientY i orig startP col hidx horig hstart hcol
    unfold handleResizeDrag
    rw [if_pos ⟨rfl, by rw [hidx]; simp⟩, hidx]
    simp only [horig, hstart, Option.getD_some]
    by_cases h : orig + (clientX - startP) > 10
    · rw [if_pos h, hcol]
      refine ⟨_, rfl, ?_⟩
      rw [if_pos h]
      simp only []
      rw [jsGet?_jsSet, if_pos ⟨rfl, by rw [hcol]; rfl⟩]
    · rw [if_neg h]
      exact ⟨sheet, rfl, by rw [if_neg h, hcol]⟩
  · intro rs sheet clientX clientY i orig startP row hidx horig hstart hrow
    unfold handleResizeDrag
    rw [if_neg (by rintro ⟨h, _⟩; cases h),
      if_pos ⟨rfl, by rw [hidx]; simp⟩, hidx]
    simp only [horig, hstart, Option.getD_some]
    by_cases h : orig + (clientY - startP) > 10
    · rw [if_pos h, hrow]
      refine ⟨_, rfl, ?_⟩
      rw [if_pos h]
      simp only []
      rw [jsGet?_jsSet, if_pos ⟨rfl, by rw [hrow]; rfl⟩]
    · rw [if_neg h]
      exact ⟨sheet, rfl, by rw [if_neg h, hrow]⟩

/-- Witness for C7: a drag to width 5 is rejected (width stays 50) and a
drag to width 70 is applied, on a concrete one-column, one-row sheet. -/
theorem resize_floor_witness :
    (∃ sheet',
      handleResizeDrag .RESIZING_COLUMN
        { resizingColumnIndex := some 0, originalSize := some 50,
          startPointerPos := some 100 }
        (mkSheet [[.str "a"]]) 55 0 = .ok sheet' ∧
      jsGet? sheet'.columns 0 =
        some (if (50 : Int) + (55 - 100) > 10 then { width := 50 + (55 - 100) }
              else { width := 50 })) ∧
    (∃ sheet',
      handleResizeDrag .RESIZING_ROW
        { resizingRowIndex := some 0, originalSize := some 20,
          startPointerPos := some 100 }
        (mkSheet [[.str "a"]]) 0 170 = .ok sheet' ∧
      jsGet? sheet'.rows 0 =
        some (if (20 : Int) + (170 - 100) > 10 then { height := 20 + (170 - 100) }
              else { height := 20 })) :=
  ⟨resize_floor.1 _ (mkSheet [[.str "a"]]) 55 0 0 50 100 { width := 50 }
      rfl rfl rfl (by decide),
   resize_floor.2 _ (mkSheet [[.str "a"]]) 0 170 0 20 100 { height := 20 }
      rfl rfl rfl (by decide)⟩

/-! ## Claim C8 -/

/-- C8 (amended): mutating a cell's value via `handleInput` assigns the
value and re-derives `styles.backgroundColor` from the `isFocused` /
`isHighlighted` / `isReferenceCell` flags with priority focused >
highlighted > reference > default, and the derivation is idempotent; for
an unfocused, unhighlighted reference cell however the background is set
to `'#e0e0e0'` only when its current value is `'white'`, so the result
depends on the previously derived background. -/
theorem background_derivation (c : Cell) (v : JSVal) :
    (c.handleInput v).value = v ∧
    (c.handleInput v).styles.backgroundColor =
      (if c.isFocused then "#d1e0ff"
       else if c.isHighlighted then "#ffe0e0"
       else if c.isReferenceCell then
         (if c.styles.backgroundColor = "white" then "#e0e0e0"
          else c.styles.backgroundColor)
       else "white") ∧
    (c.handleInput v).updateStyles = c.handleInput v := by
  refine ⟨handleInput_value .., ?_, updateStyles_idem _⟩
  unfold Cell.handleInput
  rw [updateStyles_backgroundColor]

/-- A reference cell that was derived while focused (background
`'#d1e0ff'`) and then lost focus. -/
def cexPreviouslyFocused : Cell :=
  { Cell.updateStyles
      { value := .str "a", isFocused := true, isReferenceCell := true }
    with isFocused := false }

/-- A reference cell that was derived while never focused (background
`'#e0e0e0'`). -/
def cexNeverFocused : Cell :=
  Cell.updateStyles
    { value := .str "a", isFocused := false, isReferenceCell := true }

/-- Counterexample to C8 as stated: two reference cells with equal
focus/highlight/reference flags, whose backgrounds were left by earlier
derivations (one was focused before, one never was), derive different
backgrounds on the next value mutation. -/
theorem background_derivation_counterexample :
    (cexPreviouslyFocused.isFocused = cexNeverFocused.isFocused ∧
     cexPreviouslyFocused.isHighlighted = cexNeverFocused.isHighlighted ∧
     cexPreviouslyFocused.isReferenceCell = cexNeverFocused.isReferenceCell) ∧
    (cexPreviouslyFocused.handleInput (.str "x")).styles.backgroundColor ≠
      (cexNeverFocused.handleInput (.str "x")).styles.backgroundColor := by
  decide

/-! ## Claim C9 -/

/-- C9: a rejected host clipboard write during copy is caught and leaves
the whole interaction state unchanged (copy highlight and marching ants
included); a rejected host clipboard read during paste, or empty
clipboard text, leaves the whole state unchanged — in particular no cell
mutation happens. -/
theorem clipboard_failure_atomicity :
    (∀ (st : AppState) (sheet : Sheet) (range : Range) (text e : String),
      serializeRange sheet range = .ok text →
      copy st sheet range (.error e) = .ok st) ∧
    (∀ (st : AppState) (range : Range) (e : String),
      paste st (.error e) range = st) ∧
    (∀ (st : AppState) (range : Range),
      paste st (.ok "") range = st) := by
  refine ⟨?_, fun _ _ _ => rfl, fun st range => by simp [paste]⟩
  intro st sheet range text e hser
  unfold copy
  rw [hser]

/-- Witness for C9: a failed copy on a concrete one-cell sheet returns
the state unchanged. -/
theorem clipboard_failure_atomicity_witness :
    copy (mkApp [[.str "a"]]) (mkSheet [[.str "a"]])
      { start := { row := 0, col := 0 }, end_ := { row := 0, col := 0 } }
      (.error "clipboard unavailable") = .ok (mkApp [[.str "a"]]) :=
  clipboard_failure_atomicity.1 (mkApp [[.str "a"]]) (mkSheet [[.str "a"]])
    { start := { row := 0, col := 0 }, end_ := { row := 0, col := 0 } }
    "a" "clipboard unavailable" (by rfl)

/-! ## Claim C2 -/

theorem intRange_cons {a b : Int} (h : a ≤ b) :
    intRange a b = a :: intRange (a + 1) b := by
  unfold intRange
  have h2 : (b + 1 - a).toNat = (b + 1 - (a + 1)).toNat + 1 := by omega
  rw [h2]
  rfl

/-- If any visited row is missing from the sheet and at least one column
is visited, the update loop throws. -/
theorem rowsFold_error_of_missing_row (inp : UpdateInput) (rowStart colStart : Int)
    (rows : List Int) (col0 : Int) (crest : List Int)
    (cells : List (List Cell))
    (hmiss : ∃ row ∈ rows, jsGet? cells row = none) :
    isThrown (rows.foldlM (fun cs row =>
      (col0 :: crest).foldlM
        (fun cs2 col => writeCellStep inp rowStart colStart cs2 row col) cs)
      cells) = true := by
  induction rows generalizing cells with
  | nil => obtain ⟨row, hmem, _⟩ := hmiss; exact absurd hmem (List.not_mem_nil row)
  | cons row rest ih =>
    obtain ⟨r, hr, hnone⟩ := hmiss
    rw [List.foldlM_cons]
    rcases List.mem_cons.mp hr with rfl | hrrest
    · rw [List.foldlM_cons]
      have hstep : writeCellStep inp rowStart colStart cells r col0 =
          .error ("TypeError: cells[row] is undefined", cells) := by
        unfold writeCellStep
        rw [hnone]
      rw [hstep, except_bind_error, except_bind_error]
      rfl
    · cases hin : (col0 :: crest).foldlM
          (fun cs2 col => writeCellStep inp rowStart colStart cs2 row col) cells with
      | error e => rw [except_bind_error]; rfl
      | ok cells1 =>
        rw [except_bind_ok]
        refine ih cells1 ⟨r, hrrest, ?_⟩
        have := (colsFold_shape inp rowStart colStart _ cells cells1 row hin).2 r
        rw [hnone] at this
        cases hx : jsGet? cells1 r with
        | none => rfl
        | some _ => rw [hx] at this; exact absurd this (by simp)

/-- C2 (amended): for `updateCellValues` with a 2D-array input, (a) when
every target row index exists in the sheet, no error is raised: present
cells in the target rectangle are updated, a column position beyond a
row's length is silently skipped, nothing outside the rectangle is
mutated and the sheet's shape is unchanged; but (b) a target row beyond
`cells.length` (with at least one target column) makes the call throw a
`TypeError` instead of being skipped. -/
theorem updateRange_out_of_bounds :
    (∀ (st : DataState) (sheet : Sheet) (rowStart colStart : Int)
      (row0 : List (Option JSVal)) (mrest : List (List (Option JSVal)))
      (recordUndo : Bool),
      st.sheet = some sheet →
      (∀ row ∈ intRange rowStart (rowStart + ((row0 :: mrest).length : Int) - 1),
        (jsGet? sheet.cells row).isSome) →
      ∃ cells',
        updateCellValues st rowStart colStart (.matrix (row0 :: mrest)) recordUndo =
          .ok { sheet := some { sheet with cells := cells' },
                history := if recordUndo then cloneSheet sheet :: st.history
                           else st.history } ∧
        (∀ r c, rowStart ≤ r ∧ r ≤ rowStart + ((row0 :: mrest).length : Int) - 1 ∧
            colStart ≤ c ∧ c ≤ colStart + (row0.length : Int) - 1 →
          jsGet2? cells' r c = (jsGet2? sheet.cells r c).map (fun cell =>
            cell.handleInput (coalesceEmpty
              (matrixEntryAt (row0 :: mrest) (r - rowStart) (c - colStart))))) ∧
        (∀ r c, ¬(rowStart ≤ r ∧ r ≤ rowStart + ((row0 :: mrest).length : Int) - 1 ∧
            colStart ≤ c ∧ c ≤ colStart + (row0.length : Int) - 1) →
          jsGet2? cells' r c = jsGet2? sheet.cells r c) ∧
        cells'.length = sheet.cells.length ∧
        (∀ r, (jsGet? cells' r).map List.length =
          (jsGet? sheet.cells r).map List.length)) ∧
    (∀ (st : DataState) (sheet : Sheet) (rowStart colStart : Int)
      (row0 : List (Option JSVal)) (mrest : List (List (Option JSVal)))
      (recordUndo : Bool),
      st.sheet = some sheet →
      row0 ≠ [] →
      (∃ row ∈ intRange rowStart (rowStart + ((row0 :: mrest).length : Int) - 1),
        jsGet? sheet.cells row = none) →
      isThrown (updateCellValues st rowStart colStart (.matrix (row0 :: mrest))
        recordUndo) = true) := by
  constructor
  · intro st sheet rowStart colStart row0 mrest recordUndo hsheet hrows
    obtain ⟨cells', hok, hvis, hlen, hrl⟩ :=
      updateCellValues_matrix_ok st sheet rowStart colStart row0 mrest recordUndo
        hsheet hrows
    refine ⟨cells', hok, ?_, ?_, hlen, hrl⟩
    · intro r c h
      rw [hvis r c, if_pos h]
    · intro r c h
      rw [hvis r c, if_neg h]
  · intro st sheet rowStart colStart row0 mrest recordUndo hsheet hr0 hmiss
    unfold updateCellValues
    have hce : inputColumnEnd (.matrix (row0 :: mrest)) colStart =
        .ok (colStart + (row0.length : Int) - 1) := rfl
    rw [hce, hsheet]
    simp only []
    have hlen0 : 1 ≤ (row0.length : Int) := by
      cases row0 with
      | nil => exact absurd rfl hr0
      | cons x xs => simp only [List.length_cons]; omega
    have hcols : intRange colStart (colStart + (row0.length : Int) - 1) =
        colStart :: intRange (colStart + 1) (colStart + (row0.length : Int) - 1) :=
      intRange_cons (by omega)
    have herr := rowsFold_error_of_missing_row (.matrix (row0 :: mrest))
      rowStart colStart
      (intRange rowStart (inputRowEnd (.matrix (row0 :: mrest)) rowStart))
      colStart (intRange (colStart + 1) (colStart + (row0.length : Int) - 1))
      sheet.cells (by rw [show inputRowEnd (.matrix (row0 :: mrest)) rowStart =
        rowStart + ((row0 :: mrest).length : Int) - 1 from rfl]; exact hmiss)
    cases hloop : updateLoop (.matrix (row0 :: mrest)) rowStart colStart
        (inputRowEnd (.matrix (row0 :: mrest)) rowStart)
        (colStart + (row0.length : Int) - 1) sheet.cells with
    | error p =>
      obtain ⟨e1, cellsErr⟩ := p
      rfl
    | ok cellsX =>
      exfalso
      unfold updateLoop at hloop
      rw [hcols] at hloop
      rw [hloop] at herr
      exact absurd herr (by simp [isThrown])

/-- Counterexample to C2 as stated: updating the single cell `(1,0)` of a
1×1 sheet — a row index beyond `cells.length` — raises a `TypeError`
instead of being silently skipped. -/
theorem updateRange_out_of_bounds_counterexample :
    isThrown (updateCellValues
      { sheet := some (mkSheet [[.str "a"]]), history := [] }
      1 0 (.scalar (.str "x")) true) = true := by
  decide

/-- Witness for C2 (amended): on a 1×1 sheet, a 1×2 array update at
`(0,0)` succeeds — the in-bounds cell is updated and the out-of-bounds
column is skipped — while the same update starting at row 1 throws. -/
theorem updateRange_out_of_bounds_witness :
    (∃ cells',
      updateCellValues { sheet := some (mkSheet [[.str "a"]]), history := [] }
          0 0 (.matrix [[some (.str "p"), some (.str "q")]]) true =
        .ok { sheet := some { mkSheet [[.str "a"]] with cells := cells' },
              history := [cloneSheet (mkSheet [[.str "a"]])] } ∧
      (∀ r c, 0 ≤ r ∧ r ≤ 0 + ((1 : Nat) : Int) - 1 ∧
          0 ≤ c ∧ c ≤ 0 + ((2 : Nat) : Int) - 1 →
        jsGet2? cells' r c = (jsGet2? (mkSheet [[.str "a"]]).cells r c).map
          (fun cell => cell.handleInput (coalesceEmpty
            (matrixEntryAt [[some (.str "p"), some (.str "q")]] (r - 0) (c - 0)))))) ∧
    isThrown (updateCellValues { sheet := some (mkSheet [[.str "a"]]), history := [] }
      1 0 (.matrix [[some (.str "p"), some (.str "q")]]) true) = true := by
  constructor
  · obtain ⟨cells', hok, hvis, _, _, _⟩ :=
      (updateRange_out_of_bounds).1
        { sheet := some (mkSheet [[.str "a"]]), history := [] }
        (mkSheet [[.str "a"]]) 0 0 [some (.str "p"), some (.str "q")] [] true
        rfl (by decide)
    exact ⟨cells', hok, hvis⟩
  · exact (updateRange_out_of_bounds).2
      { sheet := some (mkSheet [[.str "a"]]), history := [] }
      (mkSheet [[.str "a"]]) 1 0 [some (.str "p"), some (.str "q")] [] true
      rfl (by simp) ⟨1, by decide, by decide⟩

/-! ## Claim C6 -/

theorem length_intRangeAux (a : Int) (n : Nat) : (intRangeAux a n).length = n := by
  induction n generalizing a with
  | zero => rfl
  | succ m ih => simp [intRangeAux, ih]

theorem length_intRange (a b : Int) : (intRange a b).length = (b + 1 - a).toNat :=
  length_intRangeAux ..

/-- The inner column loop of the `Delete` handler: one recorded
single-cell clear per visited column of a present row. -/
theorem deleteColsFold (cols : List Int) (hnd : cols.Nodup) (row : Int)
    (st : DataState) (sheet : Sheet)
    (hsheet : st.sheet = some sheet)
    (hrow : (jsGet? sheet.cells row).isSome) :
    ∃ st' sheet',
      (cols.foldlM (fun s2 col =>
        updateCellValues s2 row col (.scalar (.str "")) true) st) = .ok st' ∧
      st'.sheet = some sheet' ∧
      sheet'.columns = sheet.columns ∧ sheet'.rows = sheet.rows ∧
      st'.history.length = st.history.length + cols.length ∧
      (∀ r c, jsGet2? sheet'.cells r c =
        if r = row ∧ c ∈ cols then
          (jsGet2? sheet.cells r c).map (fun cell => cell.handleInput (.str ""))
        else jsGet2? sheet.cells r c) ∧
      sheet'.cells.length = sheet.cells.length ∧
      (∀ r, (jsGet? sheet'.cells r).map List.length =
        (jsGet? sheet.cells r).map List.length) := by
  induction cols generalizing st sheet with
  | nil =>
    refine ⟨st, sheet, rfl, hsheet, rfl, rfl, by simp, ?_, rfl, fun _ => rfl⟩
    intro r c
    rw [if_neg (by rintro ⟨_, h⟩; exact List.not_mem_nil c h)]
  | cons col rest ih =>
    rw [List.nodup_cons] at hnd
    obtain ⟨cells1, hok, hvis1, hlen1, hrl1⟩ :=
      updateCellValues_scalar_ok st sheet row col (.str "") true hsheet rfl hrow
    replace hok : updateCellValues st row col (.scalar (.str "")) true =
        .ok { sheet := some { sheet with cells := cells1 },
              history := cloneSheet sheet :: st.history } := hok
    have hrow1 : (jsGet? cells1 row).isSome := by
      have h := hrl1 row
      cases hx : jsGet? cells1 row with
      | some _ => rfl
      | none =>
        rw [hx] at h
        cases hy : jsGet? sheet.cells row with
        | none => rw [hy] at hrow; exact absurd hrow (by simp)
        | some _ => rw [hy] at h; exact absurd h (by simp)
    obtain ⟨st', sheet', hfold, hsheet', hcols', hrows', hhist, hvis, hclen, hrl⟩ :=
      ih hnd.2
        { sheet := some { sheet with cells := cells1 },
          history := cloneSheet sheet :: st.history }
        { sheet with cells := cells1 } rfl hrow1
    refine ⟨st', sheet', ?_, hsheet', hcols', hrows', ?_, ?_, ?_, ?_⟩
    · rw [List.foldlM_cons, hok, except_bind_ok, hfold]
    · simp only [List.length_cons] at hhist ⊢
      omega
    · intro r c
      rw [hvis r c]
      simp only []
      by_cases hmem : r = row ∧ c ∈ col :: rest
      · obtain ⟨rfl, hcm⟩ := hmem
        rcases List.mem_cons.mp hcm with rfl | hcr
        · rw [if_neg (by rintro ⟨_, hx⟩; exact hnd.1 hx), hvis1 r c,
            if_pos ⟨rfl, rfl⟩, if_pos ⟨rfl, hcm⟩]
        · rw [if_pos ⟨rfl, hcr⟩, hvis1 r c,
            if_neg (by rintro ⟨_, hx⟩; exact hnd.1 (hx ▸ hcr)), if_pos ⟨rfl, hcm⟩]
      · have h1 : ¬(r = row ∧ c ∈ rest) := by
          rintro ⟨hx, hy⟩; exact hmem ⟨hx, List.mem_cons_of_mem _ hy⟩
        have h2 : ¬(r = row ∧ c = col) := by
          rintro ⟨hx, hy⟩; exact hmem ⟨hx, hy ▸ List.mem_cons_self ..⟩
        rw [if_neg h1, hvis1 r c, if_neg h2, if_neg hmem]
    · simp only [] at hclen
      omega
    · intro r
      rw [hrl r]
      exact hrl1 r

/-- The nested loops of the `Delete` handler: one recorded clear per
visited cell of the rectangle spanned by the given row and column
indices. -/
theorem deleteRowsFold (rows cols : List Int) (hndr : rows.Nodup)
    (hndc : cols.Nodup) (st : DataState) (sheet : Sheet)
    (hsheet : st.sheet = some sheet)
    (hrows : ∀ row ∈ rows, (jsGet? sheet.cells row).isSome) :
    ∃ st' sheet',
      (rows.foldlM (fun s row =>
        cols.foldlM (fun s2 col =>
          updateCellValues s2 row col (.scalar (.str "")) true) s) st) = .ok st' ∧
      st'.sheet = some sheet' ∧
      sheet'.columns = sheet.columns ∧ sheet'.rows = sheet.rows ∧
      st'.history.length = st.history.length + rows.length * cols.length ∧
      (∀ r c, jsGet2? sheet'.cells r c =
        if r ∈ rows ∧ c ∈ cols then
          (jsGet2? sheet.cells r c).map (fun cell => cell.handleInput (.str ""))
        else jsGet2? sheet.cells r c) ∧
      sheet'.cells.length = sheet.cells.length ∧
      (∀ r, (jsGet? sheet'.cells r).map List.length =
        (jsGet? sheet.cells r).map List.length) := by
  induction rows generalizing st sheet with
  | nil =>
    refine ⟨st, sheet, rfl, hsheet, rfl, rfl, by simp, ?_, rfl, fun _ => rfl⟩
    intro r c
    rw [if_neg (by rintro ⟨h, _⟩; exact List.not_mem_nil r h)]
  | cons row rest ih =>
    rw [List.nodup_cons] at hndr
    obtain ⟨st1, sheet1, hfold1, hsheet1, hcols1, hrows1eq, hhist1, hvis1, hclen1, hrl1⟩ :=
      deleteColsFold cols hndc row st sheet hsheet (hrows row (List.mem_cons_self ..))
    have hpres1 : ∀ r ∈ rest, (jsGet? sheet1.cells r).isSome := by
      intro r hr
      have h := hrl1 r
      have h2 := hrows r (List.mem_cons_of_mem _ hr)
      cases hx : jsGet? sheet1.cells r with
      | some _ => rfl
      | none =>
        rw [hx] at h
        cases hy : jsGet? sheet.cells r with
        | none => rw [hy] at h2; exact absurd h2 (by simp)
        | some _ => rw [hy] at h; exact absurd h (by simp)
    obtain ⟨st', sheet', hfold, hsheet', hcols', hrows', hhist, hvis, hclen, hrl⟩ :=
      ih hndr.2 st1 sheet1 hsheet1 hpres1
    refine ⟨st', sheet', ?_, hsheet', hcols'.trans hcols1,
      hrows'.trans hrows1eq, ?_, ?_, by omega, ?_⟩
    · rw [List.foldlM_cons, hfold1, except_bind_ok, hfold]
    · rw [hhist, hhist1]
      simp only [List.length_cons]
      ring
    · intro r c
      rw [hvis r c]
      by_cases hmem : r ∈ row :: rest ∧ c ∈ cols
      · obtain ⟨hrm, hcm⟩ := hmem
        rcases List.mem_cons.mp hrm with rfl | hrr
        · rw [if_neg (by rintro ⟨hx, _⟩; exact hndr.1 hx), hvis1 r c,
            if_pos ⟨rfl, hcm⟩, if_pos ⟨hrm, hcm⟩]
        · rw [if_pos ⟨hrr, hcm⟩, hvis1 r c,
            if_neg (by rintro ⟨hx, _⟩; exact hndr.1 (hx ▸ hrr)),
            if_pos ⟨hrm, hcm⟩]
      · have h1 : ¬(r ∈ rest ∧ c ∈ cols) := by
          rintro ⟨hx, hy⟩; exact hmem ⟨List.mem_cons_of_mem _ hx, hy⟩
        have h2 : ¬(r = row ∧ c ∈ cols) := by
          rintro ⟨hx, hy⟩; exact hmem ⟨hx ▸ List.mem_cons_self .., hy⟩
        rw [if_neg h1, hvis1 r c, if_neg h2, if_neg hmem]
    · intro r
      rw [hrl r, hrl1 r]

/-- C6: pressing `Delete` with an active cell while the edit box is
disabled, with any (possibly unnormalized) in-bounds selection, sets the
value of every cell in the normalized selection rectangle to the empty
string, leaves everything else unchanged, and pushes exactly one undo
snapshot per cleared cell, so the stack grows by the rectangle's cell
count. -/
theorem delete_clears_selection (st : DataState) (sheet : Sheet) (sel : Range)
    (hsheet : st.sheet = some sheet)
    (hcells : ∀ r c,
      min sel.start.row sel.end_.row ≤ r → r ≤ max sel.start.row sel.end_.row →
      min sel.start.col sel.end_.col ≤ c → c ≤ max sel.start.col sel.end_.col →
      (jsGet2? sheet.cells r c).isSome) :
    ∃ st' sheet',
      onKeyDownDelete st sel true true = .ok st' ∧
      st'.sheet = some sheet' ∧
      (∀ r c,
        min sel.start.row sel.end_.row ≤ r → r ≤ max sel.start.row sel.end_.row →
        min sel.start.col sel.end_.col ≤ c → c ≤ max sel.start.col sel.end_.col →
        (jsGet2? sheet'.cells r c).map Cell.value = some (.str "")) ∧
      (∀ r c, ¬(min sel.start.row sel.end_.row ≤ r ∧
          r ≤ max sel.start.row sel.end_.row ∧
          min sel.start.col sel.end_.col ≤ c ∧
          c ≤ max sel.start.col sel.end_.col) →
        jsGet2? sheet'.cells r c = jsGet2? sheet.cells r c) ∧
      st'.history.length = st.history.length +
        (max sel.start.row sel.end_.row + 1 - min sel.start.row sel.end_.row).toNat *
        (max sel.start.col sel.end_.col + 1 - min sel.start.col sel.end_.col).toNat := by
  have hrows : ∀ row ∈ intRange (min sel.start.row sel.end_.row)
      (max sel.start.row sel.end_.row), (jsGet? sheet.cells row).isSome := by
    intro row hmem
    rw [mem_intRange] at hmem
    have := hcells row (min sel.start.col sel.end_.col) hmem.1 hmem.2
      (le_refl _) (by omega)
    rw [jsGet2?_eq] at this
    cases hx : jsGet? sheet.cells row with
    | some _ => rfl
    | none => rw [hx] at this; exact absurd this (by simp)
  obtain ⟨st', sheet', hfold, hsheet', _, _, hhist, hvis, _, _⟩ :=
    deleteRowsFold (intRange (min sel.start.row sel.end_.row)
        (max sel.start.row sel.end_.row))
      (intRange (min sel.start.col sel.end_.col)
        (max sel.start.col sel.end_.col))
      (nodup_intRange ..) (nodup_intRange ..) st sheet hsheet hrows
  refine ⟨st', sheet', ?_, hsheet', ?_, ?_, ?_⟩
  · unfold onKeyDownDelete
    simp only [Bool.not_true, Bool.false_eq_true, if_false]
    exact hfold
  · intro r c h1 h2 h3 h4
    rw [hvis r c, if_pos ⟨mem_intRange.mpr ⟨h1, h2⟩, mem_intRange.mpr ⟨h3, h4⟩⟩]
    obtain ⟨cell, hcell⟩ := Option.isSome_iff_exists.mp (hcells r c h1 h2 h3 h4)
    rw [hcell]
    simp only [Option.map_some']
    rw [handleInput_value]
  · intro r c h
    rw [hvis r c, if_neg]
    rintro ⟨hm1, hm2⟩
    rw [mem_intRange] at hm1 hm2
    exact h ⟨hm1.1, hm1.2, hm2.1, hm2.2⟩
  · rw [hhist, length_intRange, length_intRange]

/-- Witness for C6: on a 2×2 sheet with selection `(1,1)`–`(0,0)` (an
unnormalized range), Delete while not editing clears all four cells and
the undo stack grows by four. -/
theorem delete_clears_selection_witness :
    ∃ st' sheet',
      onKeyDownDelete { sheet := some (mkSheet [[.str "a", .str "b"], [.str "c", .str "d"]]), history := [] }
        { start := { row := 1, col := 1 }, end_ := { row := 0, col := 0 } }
        true true = .ok st' ∧
      st'.sheet = some sheet' ∧
      (∀ r c,
        min (1 : Int) 0 ≤ r → r ≤ max (1 : Int) 0 →
        min (1 : Int) 0 ≤ c → c ≤ max (1 : Int) 0 →
        (jsGet2? sheet'.cells r c).map Cell.value = some (.str "")) ∧
      (∀ r c, ¬(min (1 : Int) 0 ≤ r ∧ r ≤ max (1 : Int) 0 ∧
          min (1 : Int) 0 ≤ c ∧ c ≤ max (1 : Int) 0) →
        jsGet2? sheet'.cells r c =
          jsGet2? (mkSheet [[.str "a", .str "b"], [.str "c", .str "d"]]).cells r c) ∧
      st'.history.length = 0 +
        (max (1 : Int) 0 + 1 - min (1 : Int) 0).toNat *
        (max (1 : Int) 0 + 1 - min (1 : Int) 0).toNat := by
  have h := delete_clears_selection
    { sheet := some (mkSheet [[.str "a", .str "b"], [.str "c", .str "d"]]), history := [] }
    (mkSheet [[.str "a", .str "b"], [.str "c", .str "d"]])
    { start := { row := 1, col := 1 }, end_ := { row := 0, col := 0 } }
    rfl
    (by
      intro r c h1 h2 h3 h4
      simp only [] at h1 h2 h3 h4
      have hr : r = 0 ∨ r = 1 := by omega
      have hc : c = 0 ∨ c = 1 := by omega
      rcases hr with rfl | rfl <;> rcases hc with rfl | rfl <;> decide)
  exact h

/-! ## Claims C4 and C10: undo machinery -/

theorem jsGet?_map {α β : Type} (f : α → β) (l : List α) (i : Int) :
    jsGet? (l.map f) i = (jsGet? l i).map f := by
  unfold jsGet?
  split
  · rfl
  · rw [List.get?_eq_getElem?, List.get?_eq_getElem?, List.getElem?_map]

/-- A JS value that survives both the JSON snapshot round trip and the
`?? ''` coalescing unchanged: a string, number or boolean. -/
def JSVal.isJsonPrimitive : JSVal → Bool
  | .str _ => true
  | .num _ => true
  | .bool _ => true
  | _ => false

theorem jsonRoundValue_of_primitive (v : JSVal) (h : v.isJsonPrimitive = true) :
    jsonRoundValue v = v := by
  cases v <;> first | rfl | exact absurd h (by simp [JSVal.isJsonPrimitive])

theorem coalesceEmpty_of_primitive (v : JSVal) (h : v.isJsonPrimitive = true) :
    coalesceEmpty (some v) = v := by
  cases v <;> first | rfl | exact absurd h (by simp [JSVal.isJsonPrimitive])

/-- The `cellValues` matrix the `Ctrl/Cmd+Z` handler builds from the
restored sheet. -/
def undoMatrix (s : Sheet) : List (List (Option JSVal)) :=
  s.cells.map (fun row => row.map (fun cell => some cell.value))

theorem undoMatrix_clone_entry (S : Sheet) (r c : Int) (cell : Cell)
    (hcell : jsGet2? S.cells r c = some cell) :
    matrixEntryAt (undoMatrix (cloneSheet S)) r c =
      some (jsonRoundValue cell.value) := by
  rcases hrow : jsGet? S.cells r with _ | rowv
  · rw [jsGet2?_eq, hrow] at hcell
    exact absurd hcell (by simp)
  · have hc2 : jsGet? rowv c = some cell := by
      rw [jsGet2?_eq, hrow] at hcell
      exact hcell
    unfold matrixEntryAt undoMatrix cloneSheet
    simp only []
    rw [jsGet?_map, jsGet?_map, hrow]
    simp only [Option.map_some']
    rw [jsGet?_map, jsGet?_map, hc2]
    rfl

theorem cloneSheet_cells_length (S : Sheet) :
    (cloneSheet S).cells.length = S.cells.length := by
  simp [cloneSheet]

theorem cloneSheet_cells_ne_nil (S : Sheet) (h : S.cells ≠ []) :
    (cloneSheet S).cells ≠ [] := by
  unfold cloneSheet
  simp only []
  intro hx
  exact h (List.map_eq_nil_iff.mp hx)

/-- Specification of the `Ctrl/Cmd+Z` handler when the top snapshot's
rows all exist in the current sheet: the snapshot is popped (no new
snapshot is pushed) and its cell values are re-applied pointwise onto
the current sheet's cells. -/
theorem onKeyDownUndo_spec (h0 : List Sheet) (cur restored : Sheet)
    (hne : restored.cells ≠ [])
    (hpres : ∀ row ∈ intRange 0 (((restored.cells.length : Int)) - 1),
      (jsGet? cur.cells row).isSome) :
    ∃ cells2,
      onKeyDownUndo { sheet := some cur, history := restored :: h0 } =
        .ok { sheet := some { cur with cells := cells2 }, history := h0 } ∧
      (∀ r c, jsGet2? cells2 r c =
        if 0 ≤ r ∧ r ≤ (restored.cells.length : Int) - 1 ∧
           0 ≤ c ∧ c ≤ ((restored.cells.headD []).length : Int) - 1 then
          (jsGet2? cur.cells r c).map (fun cell =>
            cell.handleInput (coalesceEmpty
              (matrixEntryAt (undoMatrix restored) r c)))
        else jsGet2? cur.cells r c) ∧
      cells2.length = cur.cells.length ∧
      (∀ r, (jsGet? cells2 r).map List.length =
        (jsGet? cur.cells r).map List.length) := by
  cases hrc : restored.cells with
  | nil => exact absurd hrc hne
  | cons rr0 rrs =>
    have hmx : undoMatrix restored =
        rr0.map (fun cell => some cell.value) ::
          rrs.map (fun row => row.map (fun cell => some cell.value)) := by
      unfold undoMatrix
      rw [hrc]
      rfl
    obtain ⟨cells2, hok, hvis, hlen, hrl⟩ :=
      updateCellValues_matrix_ok
        { sheet := some cur, history := h0 } cur 0 0
        (rr0.map (fun cell => some cell.value))
        (rrs.map (fun row => row.map (fun cell => some cell.value)))
        false rfl
        (by
          intro row hmem
          refine hpres row ?_
          rw [mem_intRange] at hmem ⊢
          simp only [List.length_cons, List.length_map] at hmem ⊢
          rw [hrc]
          simp only [List.length_cons]
          omega)
    refine ⟨cells2, ?_, ?_, hlen, hrl⟩
    · unfold onKeyDownUndo undoPop
      simp only []
      rw [show restored.cells.map (fun row => row.map (fun cell => some cell.value)) =
          (rr0.map (fun cell => some cell.value)) ::
            rrs.map (fun row => row.map (fun cell => some cell.value)) by
        rw [hrc]; rfl]
      exact hok
    · intro r c
      rw [hvis r c]
      have hl1 : ((rr0.map (fun cell => some cell.value) ::
          rrs.map (fun row => row.map (fun cell => some cell.value))).length : Int) =
          (restored.cells.length : Int) := by
        rw [hrc]
        simp
      have hl2 : ((rr0.map (fun cell => some cell.value)).length : Int) =
          ((restored.cells.headD []).length : Int) := by
        rw [hrc]
        simp
      rw [← hmx]
      simp only [Int.sub_zero]
      refine if_congr ?_ rfl rfl
      have hlu : ((undoMatrix restored).length : Int) = (restored.cells.length : Int) := by
        simp [undoMatrix]
      have hlen1 : ((rr0 :: rrs).length : Int) = (restored.cells.length : Int) := by
        rw [hrc]
      have hlen2 : ((rr0.map (fun cell => some cell.value)).length : Int) =
          ((restored.cells.headD []).length : Int) := hl2
      have hlen3 : (rr0.length : Int) = ((restored.cells.headD []).length : Int) := by
        rw [hrc]
        simp
      have hhead : ((((rr0 :: rrs).headD []).length : Nat) : Int) = (rr0.length : Int) := rfl
      constructor
      · rintro ⟨h1, h2, h3, h4⟩
        exact ⟨h1, by omega, h3, by omega⟩
      · rintro ⟨h1, h2, h3, h4⟩
        exact ⟨h1, by omega, h3, by omega⟩

theorem jsGet?_mem {α : Type} {l : List α} {i : Int} {x : α}
    (h : jsGet? l i = some x) : x ∈ l := by
  unfold jsGet? at h
  split at h
  · exact absurd h (by simp)
  · rw [List.get?_eq_getElem?] at h
    exact List.getElem?_mem h

theorem jsGet?_bounds {α : Type} {l : List α} {i : Int} {x : α}
    (h : jsGet? l i = some x) : 0 ≤ i ∧ i.toNat < l.length := by
  have : (jsGet? l i).isSome := by rw [h]; rfl
  exact (jsGet?_isSome_iff ..).mp this

/-- Two cell matrices with the same row lengths have the same positions
occupied. -/
theorem jsGet2?_isSome_iff_of_shape (cellsA cellsB : List (List Cell))
    (h : ∀ r, (jsGet? cellsA r).map List.length = (jsGet? cellsB r).map List.length)
    (r c : Int) :
    (jsGet2? cellsA r c).isSome ↔ (jsGet2? cellsB r c).isSome := by
  have hr := h r
  rw [jsGet2?_eq, jsGet2?_eq]
  cases hA : jsGet? cellsA r with
  | none =>
    rw [hA] at hr
    cases hB : jsGet? cellsB r with
    | none => rfl
    | some rowB => rw [hB] at hr; exact absurd hr (by simp)
  | some rowA =>
    rw [hA] at hr
    cases hB : jsGet? cellsB r with
    | none => rw [hB] at hr; exact absurd hr (by simp)
    | some rowB =>
      rw [hB] at hr
      simp only [Option.map_some'] at hr
      rw [jsGet?_isSome_iff, jsGet?_isSome_iff]
      have : rowA.length = rowB.length := by
        injection hr
      omega

theorem cloneSheet_headD_length (S : Sheet) :
    (((cloneSheet S).cells.headD []).length : Int) =
      ((S.cells.headD []).length : Int) := by
  unfold cloneSheet
  cases S.cells with
  | nil => rfl
  | cons r0 rs => simp

/-! ## Claim C4 -/

/-- C4 (amended): for any nonempty rectangular sheet `S` whose cell
values are all strings, numbers or booleans, after any successful
`updateCellValues` mutation with `recordUndo = true` the undo
accelerator pops the snapshot stack (pushing nothing) and restores a
sheet whose cell values all equal those of `S`. -/
theorem undo_roundtrip (st : DataState) (S : Sheet) (rowStart colStart : Int)
    (inp : UpdateInput) (st1 : DataState)
    (hsheet : st.sheet = some S)
    (hne : S.cells ≠ [])
    (hrect : ∀ rowv ∈ S.cells, rowv.length = (S.cells.headD []).length)
    (hprim : ∀ rowv ∈ S.cells, ∀ cell ∈ rowv, cell.value.isJsonPrimitive = true)
    (hM : updateCellValues st rowStart colStart inp true = .ok st1) :
    ∃ st2 S2,
      onKeyDownUndo st1 = .ok st2 ∧
      st2.history = st.history ∧
      st2.sheet = some S2 ∧
      (∀ r c, (jsGet2? S2.cells r c).map Cell.value =
        (jsGet2? S.cells r c).map Cell.value) := by
  obtain ⟨cells1, hst1, hlen1, hrl1⟩ :=
    updateCellValues_ok_inversion st S rowStart colStart inp true st1 hsheet hM
  replace hst1 : st1 =
      { sheet := some { S with cells := cells1 },
        history := cloneSheet S :: st.history } := hst1
  subst hst1
  obtain ⟨cells2, hok2, hvis2, hlen2, hrl2⟩ :=
    onKeyDownUndo_spec st.history { S with cells := cells1 } (cloneSheet S)
      (cloneSheet_cells_ne_nil S hne)
      (by
        intro row hmem
        rw [mem_intRange, cloneSheet_cells_length] at hmem
        rw [jsGet?_isSome_iff]
        simp only []
        omega)
  refine ⟨_, _, hok2, rfl, rfl, ?_⟩
  intro r c
  rw [hvis2 r c]
  simp only []
  cases hS : jsGet2? S.cells r c with
  | none =>
    have hnone1 : jsGet2? cells1 r c = none := by
      have := (jsGet2?_isSome_iff_of_shape cells1 S.cells hrl1 r c)
      cases hx : jsGet2? cells1 r c with
      | none => rfl
      | some _ =>
        rw [hx, hS] at this
        exact absurd (this.mp rfl) (by simp)
    rw [hnone1]
    split <;> rfl
  | some cell =>
    have hrowv : ∃ rowv, jsGet? S.cells r = some rowv ∧ jsGet? rowv c = some cell := by
      rw [jsGet2?_eq] at hS
      cases hx : jsGet? S.cells r with
      | none => rw [hx] at hS; exact absurd hS (by simp)
      | some rowv => rw [hx] at hS; exact ⟨rowv, rfl, hS⟩
    obtain ⟨rowv, hrow, hcol⟩ := hrowv
    have hrb := jsGet?_bounds hrow
    have hcb := jsGet?_bounds hcol
    have hw : rowv.length = (S.cells.headD []).length := hrect rowv (jsGet?_mem hrow)
    have hrect_bounds : 0 ≤ r ∧ r ≤ ((cloneSheet S).cells.length : Int) - 1 ∧
        0 ≤ c ∧ c ≤ (((cloneSheet S).cells.headD []).length : Int) - 1 := by
      rw [cloneSheet_cells_length]
      refine ⟨hrb.1, by omega, hcb.1, ?_⟩
      have := cloneSheet_headD_length S
      omega
    rw [if_pos hrect_bounds,
      undoMatrix_clone_entry S r c cell hS,
      jsonRoundValue_of_primitive cell.value
        (hprim rowv (jsGet?_mem hrow) cell (jsGet?_mem hcol)),
      coalesceEmpty_of_primitive cell.value
        (hprim rowv (jsGet?_mem hrow) cell (jsGet?_mem hcol))]
    have hsome1 : (jsGet2? cells1 r c).isSome := by
      rw [jsGet2?_isSome_iff_of_shape cells1 S.cells hrl1 r c, hS]
      rfl
    obtain ⟨cell1, hcell1⟩ := Option.isSome_iff_exists.mp hsome1
    rw [hcell1]
    simp only [Option.map_some']
    rw [handleInput_value]

/-- The final cell values after one recorded mutation followed by the
undo accelerator, on a given initial data state. -/
def mutateThenUndoValues (st : DataState) (rowStart colStart : Int)
    (inp : UpdateInput) : Option (List (List JSVal)) :=
  match updateCellValues st rowStart colStart inp true with
  | .error _ => none
  | .ok st1 =>
    match onKeyDownUndo st1 with
    | .error _ => none
    | .ok st2 =>
      match st2.sheet with
      | none => none
      | some s => some (s.cells.map (fun row => row.map Cell.value))

/-- Counterexample to C4 as stated: on a sheet whose single cell holds
`null`, a recorded mutation followed by undo restores the cell as the
empty string (`value ?? ''` in the bulk re-apply), not as `null`. -/
theorem undo_roundtrip_counterexample :
    mutateThenUndoValues { sheet := some (mkSheet [[JSVal.null]]), history := [] }
        0 0 (.scalar (.str "x")) = some [[.str ""]] ∧
    ¬ mutateThenUndoValues { sheet := some (mkSheet [[JSVal.null]]), history := [] }
        0 0 (.scalar (.str "x")) = some [[JSVal.null]] := by
  decide

/-- Witness for C4 (amended): a concrete 1×1 string sheet, mutated and
then undone, gets its original value back with the stack popped. -/
theorem undo_roundtrip_witness :
    ∃ st2 S2,
      onKeyDownUndo
        { sheet := some (mkSheet [[.str "x"]]),
          history := [mkSheet [[.str "a"]]] } = .ok st2 ∧
      st2.history = ([] : List Sheet) ∧
      st2.sheet = some S2 ∧
      (∀ r c, (jsGet2? S2.cells r c).map Cell.value =
        (jsGet2? (mkSheet [[.str "a"]]).cells r c).map Cell.value) :=
  undo_roundtrip { sheet := some (mkSheet [[.str "a"]]), history := [] }
    (mkSheet [[.str "a"]]) 0 0 (.scalar (.str "x"))
    { sheet := some (mkSheet [[.str "x"]]), history := [mkSheet [[.str "a"]]] }
    rfl (by decide) (by decide) (by decide) (by rfl)

/-! ## Claim C10 -/

/-- C10: undo snapshots are JSON round trips, so non-JSON cell content is
not preserved: every snapshot has all `customRenderer` fields absent,
and for a rectangular sheet with a `Date`-valued cell, capturing a
snapshot and undoing restores that cell's value as the date's ISO string
rather than a `Date`. -/
theorem snapshot_json_semantics :
    (∀ s : Sheet, ∀ rowv ∈ (cloneSheet s).cells, ∀ cl ∈ rowv,
      cl.customRenderer = none) ∧
    (∀ (st : DataState) (S : Sheet) (r c : Int) (cell : Cell) (iso : String),
      st.sheet = some S →
      (∀ rowv ∈ S.cells, rowv.length = (S.cells.headD []).length) →
      jsGet2? S.cells r c = some cell →
      cell.value = .date iso →
      ∃ st2 S2,
        onKeyDownUndo (captureSheetState st S) = .ok st2 ∧
        st2.sheet = some S2 ∧
        (jsGet2? S2.cells r c).map Cell.value = some (.str iso)) := by
  constructor
  · intro s rowv hrow cl hcl
    unfold cloneSheet at hrow
    simp only [] at hrow
    obtain ⟨rowv0, _, rfl⟩ := List.mem_map.mp hrow
    obtain ⟨cl0, _, rfl⟩ := List.mem_map.mp hcl
    rfl
  · intro st S r c cell iso hsheet hrect hcell hval
    have hrowv : ∃ rowv, jsGet? S.cells r = some rowv ∧ jsGet? rowv c = some cell := by
      rw [jsGet2?_eq] at hcell
      cases hx : jsGet? S.cells r with
      | none => rw [hx] at hcell; exact absurd hcell (by simp)
      | some rowv => rw [hx] at hcell; exact ⟨rowv, rfl, hcell⟩
    obtain ⟨rowv, hrow, hcol⟩ := hrowv
    have hrb := jsGet?_bounds hrow
    have hcb := jsGet?_bounds hcol
    have hne : S.cells ≠ [] := by
      intro hx
      rw [hx] at hrb
      simp at hrb
    obtain ⟨cells2, hok2, hvis2, hlen2, hrl2⟩ :=
      onKeyDownUndo_spec st.history S (cloneSheet S)
        (cloneSheet_cells_ne_nil S hne)
        (by
          intro row hmem
          rw [mem_intRange, cloneSheet_cells_length] at hmem
          rw [jsGet?_isSome_iff]
          omega)
    have hcap : captureSheetState st S =
        { sheet := some S, history := cloneSheet S :: st.history } := by
      unfold captureSheetState
      rw [hsheet]
    rw [hcap]
    refine ⟨_, _, hok2, rfl, ?_⟩
    rw [hvis2 r c]
    have hw : rowv.length = (S.cells.headD []).length := hrect rowv (jsGet?_mem hrow)
    have hrect_bounds : 0 ≤ r ∧ r ≤ ((cloneSheet S).cells.length : Int) - 1 ∧
        0 ≤ c ∧ c ≤ (((cloneSheet S).cells.headD []).length : Int) - 1 := by
      rw [cloneSheet_cells_length]
      refine ⟨hrb.1, by omega, hcb.1, ?_⟩
      have := cloneSheet_headD_length S
      omega
    rw [if_pos hrect_bounds, undoMatrix_clone_entry S r c cell hcell, hval, hcell]
    simp only [Option.map_some']
    rw [handleInput_value]
    rfl

/-! ## Paste specification machinery (claims C1, C3, C5) -/

theorem updateCellValues_matrix_ok' (st : DataState) (sheet : Sheet)
    (rowStart colStart : Int) (m : List (List (Option JSVal))) (recordUndo : Bool)
    (hm : m ≠ []) (hsheet : st.sheet = some sheet)
    (hrows : ∀ row ∈ intRange rowStart (rowStart + (m.length : Int) - 1),
      (jsGet? sheet.cells row).isSome) :
    ∃ cells',
      updateCellValues st rowStart colStart (.matrix m) recordUndo =
        .ok { sheet := some { sheet with cells := cells' },
              history := if recordUndo then cloneSheet sheet :: st.history
                         else st.history } ∧
      (∀ r c, jsGet2? cells' r c =
        if rowStart ≤ r ∧ r ≤ rowStart + (m.length : Int) - 1 ∧
           colStart ≤ c ∧ c ≤ colStart + ((m.headD []).length : Int) - 1 then
          (jsGet2? sheet.cells r c).map (fun cell =>
            cell.handleInput (coalesceEmpty
              (matrixEntryAt m (r - rowStart) (c - colStart))))
        else jsGet2? sheet.cells r c) ∧
      cells'.length = sheet.cells.length ∧
      (∀ r, (jsGet? cells' r).map List.length =
        (jsGet? sheet.cells r).map List.length) := by
  cases m with
  | nil => exact absurd rfl hm
  | cons row0 mrest =>
    exact updateCellValues_matrix_ok st sheet rowStart colStart row0 mrest
      recordUndo hsheet hrows

theorem jsGet?_range_map {β : Type} (n : Nat) (f : Nat → β) (i : Int)
    (hi0 : 0 ≤ i) (hin : i.toNat < n) :
    jsGet? ((List.range n).map f) i = some (f i.toNat) := by
  unfold jsGet?
  rw [if_neg (by omega), List.get?_eq_getElem?, List.getElem?_map,
    List.getElem?_range hin]
  rfl

theorem matrixEntryAt_range_map (hN wN : Nat) (ent : Nat → Nat → Option JSVal)
    (i j : Int) (hi0 : 0 ≤ i) (hiN : i.toNat < hN) (hj0 : 0 ≤ j) (hjN : j.toNat < wN) :
    matrixEntryAt
        ((List.range hN).map (fun r => (List.range wN).map (fun c => ent r c)))
        i j = ent i.toNat j.toNat := by
  unfold matrixEntryAt
  rw [jsGet?_range_map hN _ i hi0 hiN]
  show (jsGet? ((List.range wN).map (fun c => ent i.toNat c)) j).join = _
  rw [jsGet?_range_map wN _ j hj0 hjN]
  rfl

theorem pasteData_length (pw ph : Int) (ent : Nat → Nat → Option JSVal) :
    ((List.range ph.toNat).map
      (fun row => (List.range pw.toNat).map (fun col => ent row col))).length =
      ph.toNat := by
  simp

theorem pasteData_headD_length (pw ph : Int) (hph : 1 ≤ ph)
    (ent : Nat → Nat → Option JSVal) :
    ((((List.range ph.toNat).map
      (fun row => (List.range pw.toNat).map (fun col => ent row col))).headD []).length) =
      pw.toNat := by
  have h : ph.toNat = (ph.toNat - 1) + 1 := by omega
  rw [h, List.range_succ_eq_map]
  simp

theorem pasteData_ne_nil (pw ph : Int) (hph : 1 ≤ ph)
    (ent : Nat → Nat → Option JSVal) :
    ((List.range ph.toNat).map
      (fun row => (List.range pw.toNat).map (fun col => ent row col))) ≠ [] := by
  have h : ph.toNat = (ph.toNat - 1) + 1 := by omega
  rw [h, List.range_succ_eq_map]
  simp

/-- Full specification of a successful paste: the dimensions follow the
single-cell/`broadcast` rule, each destination cell in the pasted
rectangle receives the tiled source entry (coerced to `''` when the
tiled row is too short), nothing else changes, one undo snapshot is
pushed, marching ants are cleared, the copy highlight is reset and the
selection becomes the pasted rectangle. -/
theorem paste_ok_spec (st : AppState) (sheet : Sheet) (text : String) (range : Range)
    (hsheet : st.data.sheet = some sheet)
    (htext : text ≠ "")
    (hW : 1 ≤ (pasteDims range (maxRowLength (parseClipboard text))
      (jsSplit '\n' text).length).1)
    (hH : 1 ≤ (pasteDims range (maxRowLength (parseClipboard text))
      (jsSplit '\n' text).length).2)
    (hrows : ∀ row ∈ intRange range.start.row
      (range.start.row + (pasteDims range (maxRowLength (parseClipboard text))
        (jsSplit '\n' text).length).2 - 1),
      (jsGet? sheet.cells row).isSome) :
    ∃ cells',
      paste st (.ok text) range =
        { data := { sheet := some { sheet with cells := cells' },
                    history := cloneSheet sheet :: st.data.history },
          selection :=
            { start := range.start,
              end_ := { row := range.start.row +
                          (pasteDims range (maxRowLength (parseClipboard text))
                            (jsSplit '\n' text).length).2 - 1,
                        col := range.start.col +
                          (pasteDims range (maxRowLength (parseClipboard text))
                            (jsSplit '\n' text).length).1 - 1 } },
          copyHighlight := noRange,
          marchingAnts := false } ∧
      (∀ r c, jsGet2? cells' r c =
        if range.start.row ≤ r ∧
           r ≤ range.start.row + (pasteDims range (maxRowLength (parseClipboard text))
             (jsSplit '\n' text).length).2 - 1 ∧
           range.start.col ≤ c ∧
           c ≤ range.start.col + (pasteDims range (maxRowLength (parseClipboard text))
             (jsSplit '\n' text).length).1 - 1 then
          (jsGet2? sheet.cells r c).map (fun cell =>
            cell.handleInput (coalesceEmpty
              ((tileEntry (parseClipboard text) (jsSplit '\n' text).length
                  (maxRowLength (parseClipboard text))
                  (r - range.start.row).toNat (c - range.start.col).toNat).map .str)))
        else jsGet2? sheet.cells r c) ∧
      cells'.length = sheet.cells.length ∧
      (∀ r, (jsGet? cells' r).map List.length =
        (jsGet? sheet.cells r).map List.length) := by
  obtain ⟨cells', hok, hvis, hlen, hrl⟩ :=
    updateCellValues_matrix_ok' st.data sheet range.start.row range.start.col
      ((List.range (pasteDims range (maxRowLength (parseClipboard text))
          (jsSplit '\n' text).length).2.toNat).map
        (fun row => (List.range (pasteDims range (maxRowLength (parseClipboard text))
            (jsSplit '\n' text).length).1.toNat).map
          (fun col => (tileEntry (parseClipboard text) (jsSplit '\n' text).length
            (maxRowLength (parseClipboard text)) row col).map .str)))
      true
      (pasteData_ne_nil _ _ hH _) hsheet
      (by
        rw [pasteData_length]
        intro row hmem
        refine hrows row ?_
        rw [mem_intRange] at hmem ⊢
        omega)
  refine ⟨cells', ?_, ?_, hlen, hrl⟩
  · unfold paste
    simp only []
    rw [if_neg htext]
    rw [show (jsSplit '\n' text).map parseClipboardLine = parseClipboard text
      from rfl]
    rw [hok]
    rfl
  · intro r c
    rw [hvis r c, pasteData_length, pasteData_headD_length _ _ hH]
    by_cases h : range.start.row ≤ r ∧
        r ≤ range.start.row + (pasteDims range (maxRowLength (parseClipboard text))
          (jsSplit '\n' text).length).2 - 1 ∧
        range.start.col ≤ c ∧
        c ≤ range.start.col + (pasteDims range (maxRowLength (parseClipboard text))
          (jsSplit '\n' text).length).1 - 1
    · have hA : range.start.row ≤ r ∧
          r ≤ range.start.row + (((pasteDims range (maxRowLength (parseClipboard text))
            (jsSplit '\n' text).length).2.toNat : Nat) : Int) - 1 ∧
          range.start.col ≤ c ∧
          c ≤ range.start.col + (((pasteDims range (maxRowLength (parseClipboard text))
            (jsSplit '\n' text).length).1.toNat : Nat) : Int) - 1 :=
        ⟨h.1, by omega, h.2.2.1, by omega⟩
      rw [if_pos hA, if_pos h]
      cases hc : jsGet2? sheet.cells r c with
      | none => rfl
      | some cell =>
        simp only [Option.map_some']
        congr 1
        rw [matrixEntryAt_range_map _ _ _ (r - range.start.row) (c - range.start.col)
          (by omega) (by omega) (by omega) (by omega)]
    · rw [if_neg (fun hA => h ⟨hA.1, by omega, hA.2.2.1, by omega⟩), if_neg h]

theorem splitCharList_ne_nil (sep : Char) (l : List Char) :
    splitCharList sep l ≠ [] := by
  cases l with
  | nil => simp [splitCharList]
  | cons c cs =>
    unfold splitCharList
    cases h : splitCharList sep cs with
    | nil => simp
    | cons hd tl =>
      simp only []
      split <;> simp

theorem jsSplit_ne_nil (sep : Char) (s : String) : jsSplit sep s ≠ [] := by
  unfold jsSplit
  intro h
  exact splitCharList_ne_nil sep s.toList (List.map_eq_nil_iff.mp h)

theorem parseCSVLine_ne_nil (line : String) : parseCSVLine line ≠ [] := by
  unfold parseCSVLine
  simp

theorem parseClipboardLine_ne_nil (line : String) : parseClipboardLine line ≠ [] := by
  unfold parseClipboardLine
  split
  · exact parseCSVLine_ne_nil line
  · exact jsSplit_ne_nil '\t' line

theorem parseClipboard_ne_nil (text : String) : parseClipboard text ≠ [] := by
  unfold parseClipboard
  intro h
  exact jsSplit_ne_nil '\n' text (List.map_eq_nil_iff.mp h)

theorem foldl_max_const (l : List Nat) (W : Nat) (h : ∀ x ∈ l, x = W) :
    l.foldl Nat.max W = W := by
  induction l with
  | nil => rfl
  | cons x xs ih =>
    rw [List.foldl_cons, h x (List.mem_cons_self ..)]
    have hmm : Nat.max W W = W := by
      show max W W = W
      exact max_self W
    rw [hmm]
    exact ih (fun y hy => h y (List.mem_cons_of_mem _ hy))

theorem maxRowLength_of_rect (block : List (List String)) (W : Nat)
    (hne : block ≠ []) (hrect : ∀ rowv ∈ block, rowv.length = W) :
    maxRowLength block = W := by
  unfold maxRowLength
  cases block with
  | nil => exact absurd rfl hne
  | cons b bs =>
    rw [List.map_cons, List.foldl_cons, hrect b (List.mem_cons_self ..)]
    have h0 : Nat.max 0 W = W := by
      show max 0 W = W
      exact max_eq_right (Nat.zero_le W)
    rw [h0]
    exact foldl_max_const _ W
      (fun x hx => by
        obtain ⟨rowv, hrow, rfl⟩ := List.mem_map.mp hx
        exact hrect rowv (List.mem_cons_of_mem _ hrow))

theorem tileEntry_isSome_of_rect (block : List (List String)) (W : Nat)
    (hne : block ≠ []) (hrect : ∀ rowv ∈ block, rowv.length = W) (hW : 1 ≤ W)
    (i j : Nat) :
    ∃ s, tileEntry block block.length W i j = some s := by
  have hlen : 0 < block.length := List.length_pos.mpr hne
  have hmod : i % block.length < block.length := Nat.mod_lt _ hlen
  obtain ⟨rowB, hrowB⟩ : ∃ rowB, block.get? (i % block.length) = some rowB := by
    rw [List.get?_eq_getElem?]
    exact ⟨block[i % block.length], List.getElem?_eq_some_iff.mpr ⟨hmod, rfl⟩⟩
  have hwB : rowB.length = W := hrect rowB (by
    rw [List.get?_eq_getElem?] at hrowB
    exact List.getElem?_mem hrowB)
  have hmodW : j % W < rowB.length := by
    rw [hwB]
    exact Nat.mod_lt _ (by omega)
  obtain ⟨s, hs⟩ : ∃ s, rowB.get? (j % W) = some s := by
    rw [List.get?_eq_getElem?]
    exact ⟨rowB[j % W], List.getElem?_eq_some_iff.mpr ⟨hmodW, rfl⟩⟩
  refine ⟨s, ?_⟩
  unfold tileEntry
  rw [hrowB]
  exact hs

theorem parseClipboard_length (text : String) :
    (parseClipboard text).length = (jsSplit '\n' text).length := by
  unfold parseClipboard
  simp

theorem pasteDims_def (range : Range) (W H : Nat) :
    pasteDims range W H =
      if range.end_.row - range.start.row + 1 = 1 ∧
         range.end_.col - range.start.col + 1 = 1
      then ((W : Int), (H : Int))
      else (range.end_.col - range.start.col + 1,
            range.end_.row - range.start.row + 1) := rfl

/-! ## Claim C1 -/

/-- C1: for a parsed clipboard block of dimensions
`copyHeight × copyWidth` (every parsed row having length `copyWidth`)
and a normalized in-bounds destination, the paste dimensions equal the
block's when the destination is a single cell and the destination's
otherwise; each pasted cell `(r, c)` receives the source entry at
`(r mod copyHeight, c mod copyWidth)`, cells outside the pasted
rectangle are unchanged, and the selection afterwards is exactly the
pasted rectangle. -/
theorem paste_tiling (st : AppState) (sheet : Sheet) (text : String)
    (range : Range) (W : Nat)
    (hsheet : st.data.sheet = some sheet)
    (htext : text ≠ "")
    (hrect : ∀ rowv ∈ parseClipboard text, rowv.length = W)
    (hnorm : range.start.row ≤ range.end_.row ∧ range.start.col ≤ range.end_.col)
    (hrows : ∀ row ∈ intRange range.start.row
      (range.start.row + (pasteDims range (maxRowLength (parseClipboard text))
        (jsSplit '\n' text).length).2 - 1),
      (jsGet? sheet.cells row).isSome) :
    maxRowLength (parseClipboard text) = W ∧
    (range.end_.row = range.start.row ∧ range.end_.col = range.start.col →
      pasteDims range (maxRowLength (parseClipboard text))
        (jsSplit '\n' text).length =
        ((W : Int), ((jsSplit '\n' text).length : Int))) ∧
    (¬(range.end_.row = range.start.row ∧ range.end_.col = range.start.col) →
      pasteDims range (maxRowLength (parseClipboard text))
        (jsSplit '\n' text).length =
        (range.end_.col - range.start.col + 1, range.end_.row - range.start.row + 1)) ∧
    ∃ cells',
      paste st (.ok text) range =
        { data := { sheet := some { sheet with cells := cells' },
                    history := cloneSheet sheet :: st.data.history },
          selection :=
            { start := range.start,
              end_ := { row := range.start.row +
                          (pasteDims range (maxRowLength (parseClipboard text))
                            (jsSplit '\n' text).length).2 - 1,
                        col := range.start.col +
                          (pasteDims range (maxRowLength (parseClipboard text))
                            (jsSplit '\n' text).length).1 - 1 } },
          copyHighlight := noRange,
          marchingAnts := false } ∧
      (∀ i j : Nat,
        (i : Int) < (pasteDims range (maxRowLength (parseClipboard text))
          (jsSplit '\n' text).length).2 →
        (j : Int) < (pasteDims range (maxRowLength (parseClipboard text))
          (jsSplit '\n' text).length).1 →
        ∃ s, tileEntry (parseClipboard text) (jsSplit '\n' text).length W i j =
            some s ∧
          (jsGet2? cells' (range.start.row + i) (range.start.col + j)).map Cell.value =
            (jsGet2? sheet.cells (range.start.row + i) (range.start.col + j)).map
              (fun _ => JSVal.str s)) ∧
      (∀ r c, ¬(range.start.row ≤ r ∧
          r ≤ range.start.row + (pasteDims range (maxRowLength (parseClipboard text))
            (jsSplit '\n' text).length).2 - 1 ∧
          range.start.col ≤ c ∧
          c ≤ range.start.col + (pasteDims range (maxRowLength (parseClipboard text))
            (jsSplit '\n' text).length).1 - 1) →
        jsGet2? cells' r c = jsGet2? sheet.cells r c) := by
  have hWmax : maxRowLength (parseClipboard text) = W :=
    maxRowLength_of_rect _ W (parseClipboard_ne_nil text) hrect
  have hW1 : 1 ≤ W := by
    cases hb : parseClipboard text with
    | nil => exact absurd hb (parseClipboard_ne_nil text)
    | cons b bs =>
      have h1 := hrect b (by rw [hb]; exact List.mem_cons_self ..)
      have h2 : b ≠ [] := by
        have : (parseClipboard text).length = (jsSplit '\n' text).length :=
          parseClipboard_length text
        unfold parseClipboard at hb
        cases hl : jsSplit '\n' text with
        | nil => exact absurd hl (jsSplit_ne_nil '\n' text)
        | cons l0 ls =>
          rw [hl] at hb
          simp only [List.map_cons, List.cons.injEq] at hb
          rw [← hb.1]
          exact parseClipboardLine_ne_nil l0
      have : 1 ≤ b.length := by
        cases b with
        | nil => exact absurd rfl h2
        | cons x xs => simp
      omega
  have hH1 : 1 ≤ (jsSplit '\n' text).length := by
    cases hl : jsSplit '\n' text with
    | nil => exact absurd hl (jsSplit_ne_nil '\n' text)
    | cons l0 ls => simp
  have hpdW : 1 ≤ (pasteDims range (maxRowLength (parseClipboard text))
      (jsSplit '\n' text).length).1 := by
    rw [pasteDims_def]
    split
    · show 1 ≤ ((maxRowLength (parseClipboard text) : Nat) : Int)
      omega
    · show 1 ≤ range.end_.col - range.start.col + 1
      omega
  have hpdH : 1 ≤ (pasteDims range (maxRowLength (parseClipboard text))
      (jsSplit '\n' text).length).2 := by
    rw [pasteDims_def]
    split
    · show 1 ≤ (((jsSplit '\n' text).length : Nat) : Int)
      omega
    · show 1 ≤ range.end_.row - range.start.row + 1
      omega
  obtain ⟨cells', hpaste, hvis, hlen, hrl⟩ :=
    paste_ok_spec st sheet text range hsheet htext hpdW hpdH hrows
  refine ⟨hWmax, ?_, ?_, cells', hpaste, ?_, ?_⟩
  · rintro ⟨h1, h2⟩
    rw [pasteDims_def, if_pos (by constructor <;> omega), hWmax]
  · intro h
    rw [pasteDims_def, if_neg (by rintro ⟨h1, h2⟩; exact h (by constructor <;> omega))]
  · intro i j hi hj
    obtain ⟨s, hs⟩ := tileEntry_isSome_of_rect (parseClipboard text) W
      (parseClipboard_ne_nil text) hrect hW1 i j
    rw [parseClipboard_length] at hs
    refine ⟨s, hs, ?_⟩
    rw [hvis (range.start.row + i) (range.start.col + j),
      if_pos ⟨by omega, by omega, by omega, by omega⟩]
    have hidx1 : (range.start.row + (i : Int) - range.start.row).toNat = i := by
      omega
    have hidx2 : (range.start.col + (j : Int) - range.start.col).toNat = j := by
      omega
    rw [hidx1, hidx2, hWmax, hs]
    cases hc : jsGet2? sheet.cells (range.start.row + i) (range.start.col + j) with
    | none => rfl
    | some cell =>
      simp only [Option.map_some']
      rw [handleInput_value]
      rfl
  · intro r c h
    rw [hvis r c, if_neg h]

/-- A 2×2 clipboard text block. -/
def c1Text : String := "a\tb\nc\td"

/-- A 4×4 destination selection. -/
def c1Range : Range :=
  { start := { row := 0, col := 0 }, end_ := { row := 3, col := 3 } }

/-- A 4×4 grid of `"z"` values. -/
def c1Vals : List (List JSVal) :=
  List.replicate 4 (List.replicate 4 (JSVal.str "z"))

/-- Witness for C1: pasting the 2×2 block `a b / c d` into a 4×4
destination tiles it in a 2×2 grid of copies and selects the 4×4
rectangle. -/
theorem paste_tiling_witness :
    maxRowLength (parseClipboard c1Text) = 2 ∧
    (c1Range.end_.row = c1Range.start.row ∧ c1Range.end_.col = c1Range.start.col →
      pasteDims c1Range (maxRowLength (parseClipboard c1Text))
        (jsSplit '\n' c1Text).length =
        (((2 : Nat) : Int), ((jsSplit '\n' c1Text).length : Int))) ∧
    (¬(c1Range.end_.row = c1Range.start.row ∧ c1Range.end_.col = c1Range.start.col) →
      pasteDims c1Range (maxRowLength (parseClipboard c1Text))
        (jsSplit '\n' c1Text).length =
        (c1Range.end_.col - c1Range.start.col + 1,
         c1Range.end_.row - c1Range.start.row + 1)) ∧
    ∃ cells',
      paste (mkApp c1Vals) (.ok c1Text) c1Range =
        { data := { sheet := some { mkSheet c1Vals with cells := cells' },
                    history := cloneSheet (mkSheet c1Vals) :: (mkApp c1Vals).data.history },
          selection :=
            { start := c1Range.start,
              end_ := { row := c1Range.start.row +
                          (pasteDims c1Range (maxRowLength (parseClipboard c1Text))
                            (jsSplit '\n' c1Text).length).2 - 1,
                        col := c1Range.start.col +
                          (pasteDims c1Range (maxRowLength (parseClipboard c1Text))
                            (jsSplit '\n' c1Text).length).1 - 1 } },
          copyHighlight := noRange,
          marchingAnts := false } ∧
      (∀ i j : Nat,
        (i : Int) < (pasteDims c1Range (maxRowLength (parseClipboard c1Text))
          (jsSplit '\n' c1Text).length).2 →
        (j : Int) < (pasteDims c1Range (maxRowLength (parseClipboard c1Text))
          (jsSplit '\n' c1Text).length).1 →
        ∃ s, tileEntry (parseClipboard c1Text) (jsSplit '\n' c1Text).length 2 i j =
            some s ∧
          (jsGet2? cells' (c1Range.start.row + i) (c1Range.start.col + j)).map Cell.value =
            (jsGet2? (mkSheet c1Vals).cells (c1Range.start.row + i)
              (c1Range.start.col + j)).map (fun _ => JSVal.str s)) ∧
      (∀ r c, ¬(c1Range.start.row ≤ r ∧
          r ≤ c1Range.start.row + (pasteDims c1Range (maxRowLength (parseClipboard c1Text))
            (jsSplit '\n' c1Text).length).2 - 1 ∧
          c1Range.start.col ≤ c ∧
          c ≤ c1Range.start.col + (pasteDims c1Range (maxRowLength (parseClipboard c1Text))
            (jsSplit '\n' c1Text).length).1 - 1) →
        jsGet2? cells' r c = jsGet2? (mkSheet c1Vals).cells r c) :=
  paste_tiling (mkApp c1Vals) (mkSheet c1Vals) c1Text c1Range 2
    rfl (by decide) (by decide) (by decide) (by decide)

/-! ## Claim C3 -/

theorem foldl_max_init_le (l : List Nat) (a : Nat) : a ≤ l.foldl Nat.max a := by
  induction l generalizing a with
  | nil => exact le_refl a
  | cons x xs ih =>
    rw [List.foldl_cons]
    exact le_trans (le_max_left a x) (ih (Nat.max a x))

theorem maxRowLength_pos (block : List (List String)) (hne : block ≠ [])
    (hrows : ∀ rowv ∈ block, rowv ≠ []) : 1 ≤ maxRowLength block := by
  cases block with
  | nil => exact absurd rfl hne
  | cons b bs =>
    have hb : b ≠ [] := hrows b (List.mem_cons_self ..)
    have hb1 : 1 ≤ b.length := by
      cases b with
      | nil => exact absurd rfl hb
      | cons x xs => simp
    unfold maxRowLength
    rw [List.map_cons, List.foldl_cons]
    have h0 : Nat.max 0 b.length = b.length := by
      show max 0 b.length = b.length
      exact max_eq_right (Nat.zero_le _)
    rw [h0]
    exact le_trans hb1 (foldl_max_init_le _ _)

theorem parseClipboard_rows_ne_nil (text : String) :
    ∀ rowv ∈ parseClipboard text, rowv ≠ [] := by
  intro rowv hmem
  unfold parseClipboard at hmem
  obtain ⟨line, _, rfl⟩ := List.mem_map.mp hmem
  exact parseClipboardLine_ne_nil line

/-- C3 (amended): for any pasted text, the block width is the maximum
parsed row length, and each destination cell of the pasted rectangle
receives the tiled entry `copiedData[i mod copyHeight][j mod copyWidth]`
— an entry beyond a shorter source row's own length is the JS
`undefined`, which the write coerces to the empty string (it is not
tiled modulo the row's own length). -/
theorem paste_ragged_rows (st : AppState) (sheet : Sheet) (text : String)
    (range : Range)
    (hsheet : st.data.sheet = some sheet)
    (htext : text ≠ "")
    (hnorm : range.start.row ≤ range.end_.row ∧ range.start.col ≤ range.end_.col)
    (hrows : ∀ row ∈ intRange range.start.row
      (range.start.row + (pasteDims range (maxRowLength (parseClipboard text))
        (jsSplit '\n' text).length).2 - 1),
      (jsGet? sheet.cells row).isSome) :
    ∃ cells',
      paste st (.ok text) range =
        { data := { sheet := some { sheet with cells := cells' },
                    history := cloneSheet sheet :: st.data.history },
          selection :=
            { start := range.start,
              end_ := { row := range.start.row +
                          (pasteDims range (maxRowLength (parseClipboard text))
                            (jsSplit '\n' text).length).2 - 1,
                        col := range.start.col +
                          (pasteDims range (maxRowLength (parseClipboard text))
                            (jsSplit '\n' text).length).1 - 1 } },
          copyHighlight := noRange,
          marchingAnts := false } ∧
      (∀ i j : Nat,
        (i : Int) < (pasteDims range (maxRowLength (parseClipboard text))
          (jsSplit '\n' text).length).2 →
        (j : Int) < (pasteDims range (maxRowLength (parseClipboard text))
          (jsSplit '\n' text).length).1 →
        (jsGet2? cells' (range.start.row + i) (range.start.col + j)).map Cell.value =
          (jsGet2? sheet.cells (range.start.row + i) (range.start.col + j)).map
            (fun _ => JSVal.str
              ((tileEntry (parseClipboard text) (jsSplit '\n' text).length
                (maxRowLength (parseClipboard text)) i j).getD ""))) := by
  have hW1 : 1 ≤ maxRowLength (parseClipboard text) :=
    maxRowLength_pos _ (parseClipboard_ne_nil text) (parseClipboard_rows_ne_nil text)
  have hH1 : 1 ≤ (jsSplit '\n' text).length := by
    cases hl : jsSplit '\n' text with
    | nil => exact absurd hl (jsSplit_ne_nil '\n' text)
    | cons l0 ls => simp
  have hpdW : 1 ≤ (pasteDims range (maxRowLength (parseClipboard text))
      (jsSplit '\n' text).length).1 := by
    rw [pasteDims_def]
    split
    · show 1 ≤ ((maxRowLength (parseClipboard text) : Nat) : Int)
      omega
    · show 1 ≤ range.end_.col - range.start.col + 1
      omega
  have hpdH : 1 ≤ (pasteDims range (maxRowLength (parseClipboard text))
      (jsSplit '\n' text).length).2 := by
    rw [pasteDims_def]
    split
    · show 1 ≤ (((jsSplit '\n' text).length : Nat) : Int)
      omega
    · show 1 ≤ range.end_.row - range.start.row + 1
      omega
  obtain ⟨cells', hpaste, hvis, hlen, hrl⟩ :=
    paste_ok_spec st sheet text range hsheet htext hpdW hpdH hrows
  refine ⟨cells', hpaste, ?_⟩
  intro i j hi hj
  rw [hvis (range.start.row + i) (range.start.col + j),
    if_pos ⟨by omega, by omega, by omega, by omega⟩]
  have hidx1 : (range.start.row + (i : Int) - range.start.row).toNat = i := by omega
  have hidx2 : (range.start.col + (j : Int) - range.start.col).toNat = j := by omega
  rw [hidx1, hidx2]
  cases hc : jsGet2? sheet.cells (range.start.row + i) (range.start.col + j) with
  | none => rfl
  | some cell =>
    simp only [Option.map_some']
    rw [handleInput_value]
    cases htile : tileEntry (parseClipboard text) (jsSplit '\n' text).length
        (maxRowLength (parseClipboard text)) i j <;> rfl

/-- The sheet's cell values after pasting the given text into the given
destination range. -/
def pasteResultValues (st : AppState) (text : String) (range : Range) :
    Option (List (List JSVal)) :=
  match (paste st (.ok text) range).data.sheet with
  | none => none
  | some s => some (s.cells.map (fun row => row.map Cell.value))

/-- Counterexample to C3 as stated: pasting the ragged block
`a b / c` (second row shorter) into a single-cell destination of a 2×2
sheet writes the empty string — not `"c"`, which tiling the short row
modulo its own length would give — into the bottom-right cell. -/
theorem paste_ragged_rows_counterexample :
    pasteResultValues (mkApp [[.str "z", .str "z"], [.str "z", .str "z"]])
        "a\tb\nc"
        { start := { row := 0, col := 0 }, end_ := { row := 0, col := 0 } } =
      some [[.str "a", .str "b"], [.str "c", .str ""]] ∧
    ¬ pasteResultValues (mkApp [[.str "z", .str "z"], [.str "z", .str "z"]])
        "a\tb\nc"
        { start := { row := 0, col := 0 }, end_ := { row := 0, col := 0 } } =
      some [[.str "a", .str "b"], [.str "c", .str "c"]] := by
  decide

/-- The ragged paste text of the C3 scenario. -/
def c3Text : String := "a\tb\nc"

/-- The single-cell destination of the C3 scenario. -/
def c3Range : Range :=
  { start := { row := 0, col := 0 }, end_ := { row := 0, col := 0 } }

/-- A 2×2 grid of `"z"` values. -/
def c3Vals : List (List JSVal) := [[.str "z", .str "z"], [.str "z", .str "z"]]

/-- Witness for C3 (amended): the same ragged paste, through the amended
theorem: destination offset `(1,1)` receives
`tileEntry … 1 1 |>.getD '' = ''`. -/
theorem paste_ragged_rows_witness :
    ∃ cells',
      paste (mkApp c3Vals) (.ok c3Text) c3Range =
        { data := { sheet := some { mkSheet c3Vals with cells := cells' },
                    history := cloneSheet (mkSheet c3Vals) :: (mkApp c3Vals).data.history },
          selection :=
            { start := c3Range.start,
              end_ := { row := c3Range.start.row +
                          (pasteDims c3Range (maxRowLength (parseClipboard c3Text))
                            (jsSplit '\n' c3Text).length).2 - 1,
                        col := c3Range.start.col +
                          (pasteDims c3Range (maxRowLength (parseClipboard c3Text))
                            (jsSplit '\n' c3Text).length).1 - 1 } },
          copyHighlight := noRange,
          marchingAnts := false } ∧
      (∀ i j : Nat,
        (i : Int) < (pasteDims c3Range (maxRowLength (parseClipboard c3Text))
          (jsSplit '\n' c3Text).length).2 →
        (j : Int) < (pasteDims c3Range (maxRowLength (parseClipboard c3Text))
          (jsSplit '\n' c3Text).length).1 →
        (jsGet2? cells' (c3Range.start.row + i) (c3Range.start.col + j)).map Cell.value =
          (jsGet2? (mkSheet c3Vals).cells (c3Range.start.row + i)
            (c3Range.start.col + j)).map
            (fun _ => JSVal.str
              ((tileEntry (parseClipboard c3Text) (jsSplit '\n' c3Text).length
                (maxRowLength (parseClipboard c3Text)) i j).getD ""))) :=
  paste_ragged_rows (mkApp c3Vals) (mkSheet c3Vals) c3Text c3Range
    rfl (by decide) (by decide) (by decide)

/-! ## Claim C5: split/join round-trip lemmas -/

theorem string_mk_toList (s : String) : String.mk s.toList = s := by
  cases s
  rfl

theorem splitCharList_no_sep (sep : Char) (x : List Char) (h : sep ∉ x) :
    splitCharList sep x = [x] := by
  induction x with
  | nil => rfl
  | cons c cs ih =>
    have hc : ¬ c = sep := fun hx => h (by rw [hx]; exact List.mem_cons_self ..)
    have hcs : sep ∉ cs := fun hx => h (List.mem_cons_of_mem _ hx)
    unfold splitCharList
    rw [ih hcs]
    simp [hc]

theorem splitCharList_sep_cons (sep : Char) (t : List Char) :
    splitCharList sep (sep :: t) = [] :: splitCharList sep t := by
  cases h : splitCharList sep t with
  | nil => exact absurd h (splitCharList_ne_nil sep t)
  | cons hd tl =>
    rw [show splitCharList sep (sep :: t) =
        (match splitCharList sep t with
          | [] => [[]]
          | h :: tl => if sep = sep then [] :: h :: tl else (sep :: h) :: tl)
        from rfl, h]
    simp

theorem splitCharList_append_sep (sep : Char) (x t : List Char) (h : sep ∉ x) :
    splitCharList sep (x ++ sep :: t) = x :: splitCharList sep t := by
  induction x with
  | nil =>
    simp only [List.nil_append]
    exact splitCharList_sep_cons sep t
  | cons c cs ih =>
    have hc : ¬ c = sep := fun hx => h (by rw [hx]; exact List.mem_cons_self ..)
    have hcs : sep ∉ cs := fun hx => h (List.mem_cons_of_mem _ hx)
    simp only [List.cons_append]
    rw [show splitCharList sep (c :: (cs ++ sep :: t)) =
        (match splitCharList sep (cs ++ sep :: t) with
          | [] => [[]]
          | h :: tl => if c = sep then [] :: h :: tl else (c :: h) :: tl)
        from rfl, ih hcs]
    simp [hc]

theorem joinCharSep_cons_cons (sep : Char) (x y : List Char)
    (rest : List (List Char)) :
    joinCharSep sep (x :: y :: rest) = x ++ sep :: joinCharSep sep (y :: rest) := rfl

theorem splitCharList_joinCharSep (sep : Char) (xs : List (List Char))
    (hne : xs ≠ []) (h : ∀ x ∈ xs, sep ∉ x) :
    splitCharList sep (joinCharSep sep xs) = xs := by
  induction xs with
  | nil => exact absurd rfl hne
  | cons x rest ih =>
    cases rest with
    | nil =>
      rw [show joinCharSep sep [x] = x from rfl]
      exact splitCharList_no_sep sep x (h x (List.mem_cons_self ..))
    | cons y rest2 =>
      rw [joinCharSep_cons_cons,
        splitCharList_append_sep sep x _ (h x (List.mem_cons_self ..)),
        ih (by simp) (fun z hz => h z (List.mem_cons_of_mem _ hz))]

theorem jsSplit_jsJoin (sep : Char) (ss : List String) (hne : ss ≠ [])
    (h : ∀ s ∈ ss, sep ∉ s.toList) : jsSplit sep (jsJoin sep ss) = ss := by
  unfold jsSplit jsJoin
  rw [show (String.mk (joinCharSep sep (ss.map String.toList))).toList =
      joinCharSep sep (ss.map String.toList) from rfl]
  rw [splitCharList_joinCharSep sep _
    (fun hx => hne (List.map_eq_nil_iff.mp hx))
    (by
      intro x hx
      obtain ⟨s, hs, rfl⟩ := List.mem_map.mp hx
      exact h s hs)]
  rw [List.map_map]
  have hcg : ∀ s ∈ ss, (String.mk ∘ String.toList) s = id s :=
    fun s _ => string_mk_toList s
  rw [List.map_congr_left hcg, List.map_id]

theorem not_mem_joinCharSep (sep c : Char) (xs : List (List Char))
    (hc : c ≠ sep) (h : ∀ x ∈ xs, c ∉ x) : c ∉ joinCharSep sep xs := by
  induction xs with
  | nil => simp [joinCharSep]
  | cons x rest ih =>
    cases rest with
    | nil => exact h x (List.mem_cons_self ..)
    | cons y rest2 =>
      rw [joinCharSep_cons_cons]
      intro hmem
      rcases List.mem_append.mp hmem with h1 | h2
      · exact h x (List.mem_cons_self ..) h1
      · rcases List.mem_cons.mp h2 with rfl | h3
        · exact hc rfl
        · exact ih (fun z hz => h z (List.mem_cons_of_mem _ hz)) h3

theorem not_mem_toList_jsJoin (sep c : Char) (ss : List String)
    (hc : c ≠ sep) (h : ∀ s ∈ ss, c ∉ s.toList) : c ∉ (jsJoin sep ss).toList := by
  unfold jsJoin
  rw [show (String.mk (joinCharSep sep (ss.map String.toList))).toList =
      joinCharSep sep (ss.map String.toList) from rfl]
  refine not_mem_joinCharSep sep c _ hc ?_
  intro x hx
  obtain ⟨s, hs, rfl⟩ := List.mem_map.mp hx
  exact h s hs

theorem mem_replaceTabs {c : Char} {s : String}
    (h : c ∈ (replaceTabsWithSpaces s).toList) : c = ' ' ∨ c ∈ s.toList := by
  unfold replaceTabsWithSpaces at h
  rw [show (String.mk (s.toList.map (fun c => if c = '\t' then ' ' else c))).toList =
      s.toList.map (fun c => if c = '\t' then ' ' else c) from rfl] at h
  obtain ⟨c0, hc0, hceq⟩ := List.mem_map.mp h
  by_cases ht : c0 = '\t'
  · rw [if_pos ht] at hceq
    exact Or.inl hceq.symm
  · rw [if_neg ht] at hceq
    exact Or.inr (hceq ▸ hc0)

theorem replaceTabs_eq_self (s : String) (h : '\t' ∉ s.toList) :
    replaceTabsWithSpaces s = s := by
  unfold replaceTabsWithSpaces
  have hcg : ∀ c ∈ s.toList, (fun c => if c = '\t' then ' ' else c) c = id c := by
    intro c hc
    simp only [id]
    rw [if_neg (fun hx : c = '\t' => h (hx ▸ hc))]
  rw [List.map_congr_left hcg, List.map_id, string_mk_toList]

theorem intRangeAux_get? (a : Int) (n i : Nat) (hi : i < n) :
    (intRangeAux a n).get? i = some (a + (i : Int)) := by
  induction n generalizing a i with
  | zero => omega
  | succ m ih =>
    cases i with
    | zero => simp [intRangeAux]
    | succ k =>
      rw [show intRangeAux a (m + 1) = a :: intRangeAux (a + 1) m from rfl]
      rw [show (a :: intRangeAux (a + 1) m).get? (k + 1) =
          (intRangeAux (a + 1) m).get? k from rfl]
      rw [ih (a + 1) k (by omega)]
      congr 1
      omega

theorem intRange_get? (a b : Int) (i : Nat) (hi : i < (b + 1 - a).toNat) :
    (intRange a b).get? i = some (a + (i : Int)) :=
  intRangeAux_get? a _ i hi

theorem mapM_ok_of_forall {α β : Type} (l : List α) (f : α → Except String β)
    (g : α → β) (h : ∀ x ∈ l, f x = .ok (g x)) : l.mapM f = .ok (l.map g) := by
  induction l with
  | nil => rfl
  | cons x xs ih =>
    rw [List.mapM_cons, h x (List.mem_cons_self ..),
      ih (fun y hy => h y (List.mem_cons_of_mem _ hy))]
    rfl

/-- The display text of the cell at `(r, c)`, or `""` when the position is
missing (only used to describe `serializeRange` on ranges where every
position is present). -/
def cellTextAt (sheet : Sheet) (r c : Int) : String :=
  match jsGet2? sheet.cells r c with
  | none => ""
  | some cell => cell.value.displayString

/-- One serialized row of `serializeRange`: the tab-join of the range's
cell texts with tabs replaced by spaces. -/
def serializedRow (sheet : Sheet) (range : Range) (r : Int) : String :=
  jsJoin '\t' ((intRange range.start.col range.end_.col).map
    (fun c => replaceTabsWithSpaces (cellTextAt sheet r c)))

theorem serializeRange_ok (sheet : Sheet) (range : Range)
    (hpres : ∀ r ∈ intRange range.start.row range.end_.row,
      ∀ c ∈ intRange range.start.col range.end_.col,
      (jsGet2? sheet.cells r c).isSome) :
    serializeRange sheet range =
      .ok (jsJoin '\n' ((intRange range.start.row range.end_.row).map
        (fun r => serializedRow sheet range r))) := by
  unfold serializeRange
  rw [mapM_ok_of_forall _ _ (fun r => serializedRow sheet range r) ?hrow]
  · rfl
  case hrow =>
    intro r hr
    rw [mapM_ok_of_forall _ _
      (fun c => replaceTabsWithSpaces (cellTextAt sheet r c)) ?hcol]
    · rfl
    case hcol =>
      intro c hc
      cases hcell : jsGet2? sheet.cells r c with
      | none =>
        exact absurd (Option.isSome_iff_exists.mp (hpres r hr c hc))
          (by rw [hcell]; rintro ⟨x, hx⟩; exact Option.noConfusion hx)
      | some cell =>
        simp only [hcell, cellTextAt]

theorem tab_not_mem_replaceTabs (s : String) :
    '\t' ∉ (replaceTabsWithSpaces s).toList := by
  unfold replaceTabsWithSpaces
  rw [show (String.mk (s.toList.map (fun c => if c = '\t' then ' ' else c))).toList =
      s.toList.map (fun c => if c = '\t' then ' ' else c) from rfl]
  intro hmem
  obtain ⟨c0, _, hceq⟩ := List.mem_map.mp hmem
  by_cases ht : c0 = '\t'
  · rw [if_pos ht] at hceq
    exact absurd hceq (by decide)
  · rw [if_neg ht] at hceq
    exact ht hceq

theorem intRange_ne_nil (a b : Int) (h : a ≤ b) : intRange a b ≠ [] := by
  intro hnil
  have hl := length_intRange a b
  rw [hnil] at hl
  simp only [List.length_nil] at hl
  omega

theorem tileEntry_intRange_block (a b a2 b2 : Int) (f : Int → Int → String)
    (i j : Nat) (hi : i < (intRange a b).length) (hj : j < (intRange a2 b2).length) :
    tileEntry ((intRange a b).map (fun r => (intRange a2 b2).map (fun c => f r c)))
      (intRange a b).length (intRange a2 b2).length i j =
      some (f (a + (i : Int)) (a2 + (j : Int))) := by
  unfold tileEntry
  rw [Nat.mod_eq_of_lt hi, List.get?_eq_getElem?, List.getElem?_map]
  have hgr : (intRange a b)[i]? = some (a + (i : Int)) := by
    rw [← List.get?_eq_getElem?]
    exact intRange_get? a b i (by rw [← length_intRange]; exact hi)
  rw [hgr]
  show ((intRange a2 b2).map (fun c => f (a + (i : Int)) c)).get?
      (j % (intRange a2 b2).length) = some (f (a + (i : Int)) (a2 + (j : Int)))
  rw [Nat.mod_eq_of_lt hj, List.get?_eq_getElem?, List.getElem?_map]
  have hgc : (intRange a2 b2)[j]? = some (a2 + (j : Int)) := by
    rw [← List.get?_eq_getElem?]
    exact intRange_get? a2 b2 j (by rw [← length_intRange]; exact hj)
  rw [hgc]
  rfl

/-- C5 (amended): for a normalized range all of whose cells hold string
values free of tab and newline characters, and whose serialized rows never
contain both a double quote and a comma, copying the range and pasting the
copied text back at the same selection reproduces every cell value of the
sheet exactly (the claim as stated — exact reproduction even for a cell
containing a literal tab — is refuted by the counterexample: the tab is
serialized as a space and the pasted value keeps the space). -/
theorem copy_paste_roundtrip (st : AppState) (sheet : Sheet) (range : Range)
    (hsheet : st.data.sheet = some sheet)
    (hrowsN : range.start.row ≤ range.end_.row)
    (hcolsN : range.start.col ≤ range.end_.col)
    (hstr : ∀ r ∈ intRange range.start.row range.end_.row,
      ∀ c ∈ intRange range.start.col range.end_.col,
      ∃ cell s, jsGet2? sheet.cells r c = some cell ∧ cell.value = .str s ∧
        '\t' ∉ s.toList ∧ '\n' ∉ s.toList)
    (hnoCSV : ∀ r ∈ intRange range.start.row range.end_.row,
      ¬(jsIncludes '"' (serializedRow sheet range r) = true ∧
        jsIncludes ',' (serializedRow sheet range r) = true)) :
    ∃ text, serializeRange sheet range = .ok text ∧
      ∃ sheet2, (paste st (.ok text) range).data.sheet = some sheet2 ∧
        ∀ r c, (jsGet2? sheet2.cells r c).map (fun cell => cell.value) =
          (jsGet2? sheet.cells r c).map (fun cell => cell.value) := by
  have hpres : ∀ r ∈ intRange range.start.row range.end_.row,
      ∀ c ∈ intRange range.start.col range.end_.col,
      (jsGet2? sheet.cells r c).isSome := by
    intro r hr c hc
    obtain ⟨cell, s, hcell, _⟩ := hstr r hr c hc
    rw [hcell]
    rfl
  have hColNe : intRange range.start.col range.end_.col ≠ [] :=
    intRange_ne_nil _ _ hcolsN
  have hRowNe : intRange range.start.row range.end_.row ≠ [] :=
    intRange_ne_nil _ _ hrowsN
  have hrowPres : ∀ r ∈ intRange range.start.row range.end_.row,
      (jsGet? sheet.cells r).isSome := by
    intro r hr
    obtain ⟨cell, s, hcell, _⟩ := hstr r hr range.start.col
      (mem_intRange.mpr ⟨le_refl _, hcolsN⟩)
    rw [jsGet2?_eq] at hcell
    cases hrow : jsGet? sheet.cells r with
    | none =>
      rw [hrow] at hcell
      exact Option.noConfusion (show (none : Option Cell) = some cell from hcell)
    | some _ => rfl
  have hcellText : ∀ r ∈ intRange range.start.row range.end_.row,
      ∀ c ∈ intRange range.start.col range.end_.col,
      ∃ cell s, jsGet2? sheet.cells r c = some cell ∧ cell.value = .str s ∧
        cellTextAt sheet r c = s ∧ '\t' ∉ s.toList ∧ '\n' ∉ s.toList := by
    intro r hr c hc
    obtain ⟨cell, s, hcell, hval, htb, hnl⟩ := hstr r hr c hc
    refine ⟨cell, s, hcell, hval, ?_, htb, hnl⟩
    unfold cellTextAt
    rw [hcell]
    show cell.value.displayString = s
    rw [hval]
    rfl
  have hnotab : ∀ r ∈ intRange range.start.row range.end_.row,
      ∀ p ∈ (intRange range.start.col range.end_.col).map
        (fun c => replaceTabsWithSpaces (cellTextAt sheet r c)),
      '\t' ∉ p.toList := by
    intro r _ p hp
    obtain ⟨c, _, rfl⟩ := List.mem_map.mp hp
    exact tab_not_mem_replaceTabs _
  have hnonl : ∀ r ∈ intRange range.start.row range.end_.row,
      '\n' ∉ (serializedRow sheet range r).toList := by
    intro r hr
    unfold serializedRow
    refine not_mem_toList_jsJoin '\t' '\n' _ (by decide) ?_
    intro p hp
    obtain ⟨c, hc, rfl⟩ := List.mem_map.mp hp
    intro hmem
    rcases mem_replaceTabs hmem with h1 | h1
    · exact absurd h1 (by decide)
    · obtain ⟨cell, s, _, _, hct, _, hnl⟩ := hcellText r hr c hc
      rw [hct] at h1
      exact hnl h1
  have hlines : jsSplit '\n' (jsJoin '\n'
      ((intRange range.start.row range.end_.row).map
        (fun r => serializedRow sheet range r))) =
      (intRange range.start.row range.end_.row).map
        (fun r => serializedRow sheet range r) := by
    refine jsSplit_jsJoin '\n' _ (fun h => hRowNe (List.map_eq_nil_iff.mp h)) ?_
    intro x hx
    obtain ⟨r, hr, rfl⟩ := List.mem_map.mp hx
    exact hnonl r hr
  have hline : ∀ r ∈ intRange range.start.row range.end_.row,
      parseClipboardLine (serializedRow sheet range r) =
        (intRange range.start.col range.end_.col).map
          (fun c => cellTextAt sheet r c) := by
    intro r hr
    unfold parseClipboardLine
    have hcond : (jsIncludes '"' (serializedRow sheet range r) &&
        jsIncludes ',' (serializedRow sheet range r)) = false := by
      have h := hnoCSV r hr
      cases h1 : jsIncludes '"' (serializedRow sheet range r) <;>
        cases h2 : jsIncludes ',' (serializedRow sheet range r) <;> simp_all
    have hcond2 : ¬((jsIncludes '"' (serializedRow sheet range r) &&
        jsIncludes ',' (serializedRow sheet range r)) = true) := by
      rw [hcond]
      decide
    rw [if_neg hcond2]
    unfold serializedRow
    rw [jsSplit_jsJoin '\t'
      ((intRange range.start.col range.end_.col).map
        (fun c => replaceTabsWithSpaces (cellTextAt sheet r c)))
      (fun h => hColNe (List.map_eq_nil_iff.mp h)) (hnotab r hr)]
    refine List.map_congr_left ?_
    intro c hc
    obtain ⟨cell, s, _, _, hct, htb, _⟩ := hcellText r hr c hc
    rw [hct]
    exact replaceTabs_eq_self s htb
  have hblock : parseClipboard (jsJoin '\n'
      ((intRange range.start.row range.end_.row).map
        (fun r => serializedRow sheet range r))) =
      (intRange range.start.row range.end_.row).map
        (fun r => (intRange range.start.col range.end_.col).map
          (fun c => cellTextAt sheet r c)) := by
    unfold parseClipboard
    rw [hlines, List.map_map]
    exact List.map_congr_left (fun r hr => hline r hr)
  have hlineslen : (jsSplit '\n' (jsJoin '\n'
      ((intRange range.start.row range.end_.row).map
        (fun r => serializedRow sheet range r)))).length =
      (intRange range.start.row range.end_.row).length := by
    rw [hlines, List.length_map]
  have hmax : maxRowLength (parseClipboard (jsJoin '\n'
      ((intRange range.start.row range.end_.row).map
        (fun r => serializedRow sheet range r)))) =
      (intRange range.start.col range.end_.col).length := by
    rw [hblock]
    refine maxRowLength_of_rect _ _ (fun h => hRowNe (List.map_eq_nil_iff.mp h)) ?_
    intro rowv hrowv
    obtain ⟨r, _, rfl⟩ := List.mem_map.mp hrowv
    exact List.length_map ..
  have hRlenI : ((intRange range.start.row range.end_.row).length : Int) =
      range.end_.row - range.start.row + 1 := by
    rw [length_intRange]
    omega
  have hClenI : ((intRange range.start.col range.end_.col).length : Int) =
      range.end_.col - range.start.col + 1 := by
    rw [length_intRange]
    omega
  have hpd : pasteDims range
      (maxRowLength (parseClipboard (jsJoin '\n'
        ((intRange range.start.row range.end_.row).map
          (fun r => serializedRow sheet range r)))))
      (jsSplit '\n' (jsJoin '\n'
        ((intRange range.start.row range.end_.row).map
          (fun r => serializedRow sheet range r)))).length =
      (((intRange range.start.col range.end_.col).length : Int),
       ((intRange range.start.row range.end_.row).length : Int)) := by
    rw [hmax, hlineslen]
    unfold pasteDims
    simp only []
    split_ifs with hsc
    · rfl
    · rw [hClenI, hRlenI]
  have hpd1 : (pasteDims range
      (maxRowLength (parseClipboard (jsJoin '\n'
        ((intRange range.start.row range.end_.row).map
          (fun r => serializedRow sheet range r)))))
      (jsSplit '\n' (jsJoin '\n'
        ((intRange range.start.row range.end_.row).map
          (fun r => serializedRow sheet range r)))).length).1 =
      ((intRange range.start.col range.end_.col).length : Int) := by
    rw [hpd]
  have hpd2 : (pasteDims range
      (maxRowLength (parseClipboard (jsJoin '\n'
        ((intRange range.start.row range.end_.row).map
          (fun r => serializedRow sheet range r)))))
      (jsSplit '\n' (jsJoin '\n'
        ((intRange range.start.row range.end_.row).map
          (fun r => serializedRow sheet range r)))).length).2 =
      ((intRange range.start.row range.end_.row).length : Int) := by
    rw [hpd]
  refine ⟨_, serializeRange_ok sheet range hpres, ?_⟩
  by_cases htext : jsJoin '\n' ((intRange range.start.row range.end_.row).map
      (fun r => serializedRow sheet range r)) = ""
  · refine ⟨sheet, ?_, fun r c => rfl⟩
    rw [htext]
    have hp0 : paste st (.ok "") range = st := rfl
    rw [hp0]
    exact hsheet
  · obtain ⟨cells', hpaste, hvis, hlen', hrl⟩ :=
      paste_ok_spec st sheet _ range hsheet htext
        (by
          rw [hpd1, hClenI]
          omega)
        (by
          rw [hpd2, hRlenI]
          omega)
        (by
          intro row hmem
          refine hrowPres row ?_
          rw [hpd2] at hmem
          rw [mem_intRange] at hmem ⊢
          rw [length_intRange] at hmem
          omega)
    refine ⟨{ sheet with cells := cells' }, by rw [hpaste], ?_⟩
    intro r c
    rw [hvis r c]
    split_ifs with hin
    · rw [hpd1, hpd2] at hin
      obtain ⟨hr1, hr2', hc1, hc2'⟩ := hin
      rw [length_intRange] at hr2' hc2'
      have hr2 : r ≤ range.end_.row := by omega
      have hc2 : c ≤ range.end_.col := by omega
      have hrmem : r ∈ intRange range.start.row range.end_.row :=
        mem_intRange.mpr ⟨hr1, hr2⟩
      have hcmem : c ∈ intRange range.start.col range.end_.col :=
        mem_intRange.mpr ⟨hc1, hc2⟩
      rw [hmax, hlineslen, hblock]
      have htile := tileEntry_intRange_block range.start.row range.end_.row
        range.start.col range.end_.col (cellTextAt sheet)
        (r - range.start.row).toNat (c - range.start.col).toNat
        (by rw [length_intRange]; omega)
        (by rw [length_intRange]; omega)
      rw [show range.start.row + (((r - range.start.row).toNat : Nat) : Int) = r
          from by omega,
        show range.start.col + (((c - range.start.col).toNat : Nat) : Int) = c
          from by omega] at htile
      rw [htile]
      obtain ⟨cell, s, hcell, hval, hct, _, _⟩ := hcellText r hrmem c hcmem
      rw [hct, hcell]
      simp only [Option.map_some']
      rw [show coalesceEmpty (some (JSVal.str s)) = JSVal.str s from rfl]
      rw [handleInput_value, hval]
    · rfl

/-- Witness for C5 (amended): the round trip on a 1×1 range holding the
string `"x"` reproduces the sheet's values. -/
theorem copy_paste_roundtrip_witness :
    ∃ text, serializeRange (mkSheet [[.str "x"]])
        { start := { row := 0, col := 0 }, end_ := { row := 0, col := 0 } } =
          .ok text ∧
      ∃ sheet2,
        (paste (mkApp [[.str "x"]]) (.ok text)
          { start := { row := 0, col := 0 },
            end_ := { row := 0, col := 0 } }).data.sheet = some sheet2 ∧
        ∀ r c, (jsGet2? sheet2.cells r c).map (fun cell => cell.value) =
          (jsGet2? (mkSheet [[.str "x"]]).cells r c).map (fun cell => cell.value) :=
  copy_paste_roundtrip (mkApp [[.str "x"]]) (mkSheet [[.str "x"]])
    { start := { row := 0, col := 0 }, end_ := { row := 0, col := 0 } }
    rfl (by decide) (by decide)
    (by
      intro r hr c hc
      rw [mem_intRange] at hr hc
      have hr' : (0 : Int) ≤ r ∧ r ≤ 0 := hr
      have hc' : (0 : Int) ≤ c ∧ c ≤ 0 := hc
      have hr0 : r = 0 := by omega
      have hc0 : c = 0 := by omega
      subst hr0
      subst hc0
      exact ⟨{ value := .str "x" }, "x", rfl, rfl, by decide, by decide⟩)
    (by
      intro r hr
      rw [mem_intRange] at hr
      have hr' : (0 : Int) ≤ r ∧ r ≤ 0 := hr
      have hr0 : r = 0 := by omega
      subst hr0
      exact fun hand => absurd hand.1 (by decide))

/-- `serializeRange`'s output as an `Option`, for concrete evaluation. -/
def serializeOut (sheet : Sheet) (range : Range) : Option String :=
  match serializeRange sheet range with
  | .ok t => some t
  | .error _ => none

/-- Counterexample to C5 as stated: a cell whose text contains a literal
tab is serialized with the tab replaced by a space, and pasting the copied
text back restores the space variant, not the original tab-containing
value — the round trip is not exact for tab-containing cells. -/
theorem copy_paste_roundtrip_counterexample :
    serializeOut (mkSheet [[.str "a\tb"]])
        { start := { row := 0, col := 0 }, end_ := { row := 0, col := 0 } } =
      some "a b" ∧
    pasteResultValues (mkApp [[.str "a\tb"]]) "a b"
        { start := { row := 0, col := 0 }, end_ := { row := 0, col := 0 } } =
      some [[.str "a b"]] ∧
    ¬ pasteResultValues (mkApp [[.str "a\tb"]]) "a b"
        { start := { row := 0, col := 0 }, end_ := { row := 0, col := 0 } } =
      some [[.str "a\tb"]] := by
  refine ⟨?_, ?_, ?_⟩ <;> decide

/-- Witness for C10: a 1×1 sheet holding a `Date` is snapshotted and
undone; the cell comes back as the ISO string. -/
theorem snapshot_json_semantics_witness :
    ∃ st2 S2,
      onKeyDownUndo (captureSheetState
        { sheet := some (mkSheet [[.date "2024-01-01T00:00:00.000Z"]]), history := [] }
        (mkSheet [[.date "2024-01-01T00:00:00.000Z"]])) = .ok st2 ∧
      st2.sheet = some S2 ∧
      (jsGet2? S2.cells 0 0).map Cell.value =
        some (.str "2024-01-01T00:00:00.000Z") :=
  snapshot_json_semantics.2
    { sheet := some (mkSheet [[.date "2024-01-01T00:00:00.000Z"]]), history := [] }
    (mkSheet [[.date "2024-01-01T00:00:00.000Z"]]) 0 0
    { value := .date "2024-01-01T00:00:00.000Z" } "2024-01-01T00:00:00.000Z"
    rfl (by decide) (by decide) rfl

end AngularSheet
